import Mathlib

/-!
Verification of the heuristic CSV ingestion and graph-reconciliation engine of
the repository (file src/db.py, methods Database._determine_delimiter and
Database.cargar_datos_manualmente, together with the Cypher statements they
issue against Neo4j).

The embedding models:
  * property values as an inductive Val (string, integer, null); Neo4j treats
    an absent property and a null property identically for reads, so node
    property maps are total functions String -> Val where vnull means absent;
  * the Python dict / CSV row / property-bag objects as association lists
    with last-write-wins lookup (Python dict literal semantics);
  * csv.DictReader on a StringIO as line splitting on newline characters plus
    field splitting on the sniffed delimiter (the source files carry no quoted
    fields, so csv quoting is not modelled), missing fields become None
    (vnull), extra fields are dropped, blank lines are skipped;
  * the Cypher operations issued by cargar_datos_manualmente:
      MERGE (n:L with key k equal to value v) SET n += bag
    as: fail on a null merge value (Neo4j raises in that case and the Python
    code has no try/except around session.execute_write, so the exception
    propagates), otherwise update every matching node with bag (+= overwrites
    listed keys, keys with null values become absent, unlisted keys are kept),
    or append a fresh node carrying the key and the bag when nothing matches;
      CREATE (n:L) SET n += bag  as unconditional node append;
      MATCH endpoints by toString(coalesce(cols...)) = toString(id) followed
      by MERGE of the relationship, RETURN 1 AS ok
    as: compute both endpoint index sets, add every absent (type, from, to)
    edge, and report resolution success iff the pair product is nonempty.

Each row of cargar_datos_manualmente translates to a small list of operations
(Op) computed from the row text alone (the Python row handling reads no graph
state); executing the operation list in order over the graph is exactly the
sequence of session.execute_write calls the source performs.  Warnings model
the logging.warning calls; the per-type counters model the created_summary
dict and the returned summary string.
-/

set_option maxRecDepth 100000

namespace ProyectoBases

/-- Property values: Neo4j string, integer, or null (= absent). -/
inductive Val
  | vstr (s : String)
  | vint (n : Int)
  | vnull
deriving DecidableEq

/-- A property bag / Python dict / CSV row: association list, later entries
overwrite earlier ones on lookup. -/
abbrev PropBag := List (String × Val)

/-- Node property maps: total functions, vnull meaning absent. -/
abbrev Props := String → Val

def emptyProps : Props := fun _ => Val.vnull

def setProp (p : Props) (k : String) (v : Val) : Props :=
  fun k0 => if k0 = k then v else p k0

/-- Cypher SET n += bag: apply every binding in order. -/
def plusEq (p : Props) (bag : PropBag) : Props :=
  bag.foldl (fun q kv => setProp q kv.1 kv.2) p

/-- Last value bound to key k in a bag (Python dict semantics). -/
def lastVal (bag : PropBag) (k : String) : Option Val :=
  bag.foldl (fun acc kv => if kv.1 = k then some kv.2 else acc) none

/-- Bag lookup, null when the key is absent (Cypher map access). -/
def bagGet (bag : PropBag) (k : String) : Val :=
  (lastVal bag k).getD Val.vnull

/- ---------------------------------------------------------------------
   String helpers mirroring the Python primitives used by the source.
--------------------------------------------------------------------- -/

/-- Line-break characters recognised by Python str.splitlines. -/
def isPyLineBreak (c : Char) : Bool :=
  c = '\n' || c = '\r' || c.toNat = 11 || c.toNat = 12 ||
  c.toNat = 28 || c.toNat = 29 || c.toNat = 30 || c.toNat = 133 ||
  c.toNat = 8232 || c.toNat = 8233

/-- Whitespace characters stripped by Python str.strip / str.split. -/
def isPySpace (c : Char) : Bool :=
  c = ' ' || c = '\t' || c = '\n' || c = '\r' || c.toNat = 11 || c.toNat = 12

def pyStrip (cs : List Char) : List Char :=
  ((cs.dropWhile isPySpace).reverse.dropWhile isPySpace).reverse

/-- Database._determine_delimiter (src/db.py lines 150-160): look only at the
first line, prefer tab, then semicolon, then comma, default tab. -/
def determine_delimiter (content : String) : Char :=
  let firstLine := content.data.takeWhile (fun c => !(isPyLineBreak c))
  if firstLine.contains '\t' then '\t'
  else if firstLine.contains ';' then ';'
  else if firstLine.contains ',' then ','
  else '\t'

/-- The norm helper of cargar_datos_manualmente (src/db.py lines 167-168):
drop byte-order marks, drop all whitespace, lowercase. -/
def norm (s : String) : String :=
  (s.data.filterMap
    (fun c => if isPySpace c || c.toNat = 0xFEFF then none else some c.toLower)).asString

def digitsToNat (ds : List Char) : Nat :=
  ds.foldl (fun a c => a * 10 + (c.toNat - 48)) 0

/-- Python int(string) on a stripped string: optional sign then digits. -/
def parsePyInt (s : String) : Option Int :=
  match pyStrip s.data with
  | [] => none
  | '+' :: ds =>
      if !ds.isEmpty && ds.all Char.isDigit then some (Int.ofNat (digitsToNat ds)) else none
  | '-' :: ds =>
      if !ds.isEmpty && ds.all Char.isDigit then some (-(Int.ofNat (digitsToNat ds))) else none
  | ds =>
      if ds.all Char.isDigit then some (Int.ofNat (digitsToNat ds)) else none

/-- The safe_int helper (src/db.py lines 170-174): int(str(value).strip()),
None on failure.  str(None) = "None" never parses; integers pass through. -/
def safe_int (v : Val) : Option Int :=
  match v with
  | Val.vstr s => parsePyInt s
  | Val.vint n => some n
  | Val.vnull => none

/- ---------------------------------------------------------------------
   CSV / DictReader model.
--------------------------------------------------------------------- -/

def linesAux : List Char → List Char → List String
  | [], acc => if acc.isEmpty then [] else [acc.reverse.asString]
  | '\r' :: '\n' :: rest, acc => acc.reverse.asString :: linesAux rest []
  | '\r' :: rest, acc => acc.reverse.asString :: linesAux rest []
  | '\n' :: rest, acc => acc.reverse.asString :: linesAux rest []
  | c :: rest, acc => linesAux rest (c :: acc)

/-- Logical lines of the uploaded text (StringIO universal newlines); a
trailing newline produces no extra empty line. -/
def csvLines (s : String) : List String := linesAux s.data []

def splitFieldAux (delim : Char) : List Char → List Char → List String
  | [], acc => [acc.reverse.asString]
  | c :: rest, acc =>
      if c = delim then acc.reverse.asString :: splitFieldAux delim rest []
      else splitFieldAux delim rest (c :: acc)

/-- Fields of one CSV line; a blank line is the empty row (csv module). -/
def parseFields (delim : Char) (line : String) : List String :=
  if line = "" then [] else splitFieldAux delim line.data []

/-- A DictReader row keyed by the original field names; missing trailing
fields become None, extra fields are dropped (restkey is unused). -/
def mkRow : List String → List String → PropBag
  | [], _ => []
  | fn :: fns, [] => (fn, Val.vnull) :: mkRow fns []
  | fn :: fns, v :: vs => (fn, Val.vstr v) :: mkRow fns vs

def upsertAssoc (m : List (String × String)) (k v : String) : List (String × String) :=
  if m.any (fun p => p.1 = k) then m.map (fun p => if p.1 = k then (k, v) else p)
  else m ++ [(k, v)]

/-- header_map (src/db.py line 193): normalized name to original name,
last write wins on collisions. -/
def headerMapOf (fieldnames : List String) : List (String × String) :=
  fieldnames.foldl (fun m h => upsertAssoc m (norm h) h) []

def hmGet (hm : List (String × String)) (k : String) : String :=
  ((hm.find? (fun p => p.1 = k)).map (fun p => p.2)).getD ""

def hmKeys (hm : List (String × String)) : List String := hm.map (fun p => p.1)

/- ---------------------------------------------------------------------
   Schema classification (the header-driven branch cascade of
   cargar_datos_manualmente, src/db.py lines 198, 223, 248, 279 and the
   find_header based relationship checks, lines 312-415).
--------------------------------------------------------------------- -/

inductive FileKind
  | persona | autor | libro | club
  | relAutorLibro | relPersonaLibro | relClubLibro | relPersonaClub
  | unrecognized
deriving DecidableEq

def sigPersona : List String := ["id", "nombre", "tipolector"]

def sigAutor : List String := ["idautor", "nombre", "nacionalidad"]

def sigLibro : List String := ["idlibro", "titulo", "genero", "anno"]

def sigClub : List String := ["idclub", "nombre", "ubicacion", "tematica"]

def subsetB (sig hs : List String) : Bool := sig.all (fun x => hs.contains x)

def aliasesAutor : List String := ["idautor", "autor_id", "autorid"]

def aliasesLibro : List String := ["idlibro", "libro_id", "libroid"]

def aliasesPersonaLibro : List String := ["id", "persona_id", "personaid", "idpersona"]

def aliasesClub : List String := ["idclub", "club_id", "clubid"]

def aliasesPersonaClub : List String := ["idpersona", "persona_id", "personaid", "id"]

/-- find_header (src/db.py lines 312-316): first alias present among the
normalized headers. -/
def findAliasN (hs : List String) (al : List String) : Option String :=
  al.find? (fun a => hs.contains a)

def classify (hs : List String) : FileKind :=
  if subsetB sigPersona hs then FileKind.persona
  else if subsetB sigAutor hs then FileKind.autor
  else if subsetB sigLibro hs then FileKind.libro
  else if subsetB sigClub hs then FileKind.club
  else if ((findAliasN hs aliasesAutor).isSome && (findAliasN hs aliasesLibro).isSome) then
    FileKind.relAutorLibro
  else if ((findAliasN hs aliasesPersonaLibro).isSome && (findAliasN hs aliasesLibro).isSome) then
    FileKind.relPersonaLibro
  else if ((findAliasN hs aliasesClub).isSome && (findAliasN hs aliasesLibro).isSome) then
    FileKind.relClubLibro
  else if ((findAliasN hs aliasesPersonaClub).isSome && (findAliasN hs aliasesClub).isSome) then
    FileKind.relPersonaClub
  else FileKind.unrecognized

/- ---------------------------------------------------------------------
   Operations: one list element per session.execute_write call or
   logging.warning call performed by the row loops.
--------------------------------------------------------------------- -/

inductive Warn
  | wNoHeaders | wRowInvalid | wNonNumericId | wNonNumericAnno | wUnresolved | wUnrecognized
deriving DecidableEq

inductive Op
  | mergeNode (label key : String) (bag : PropBag)
  | createNode (label : String) (bag : PropBag)
  | relMerge (relType fromLabel : String) (fromCols : List String) (fromId : Int)
      (toLabel : String) (toCols : List String) (toId : Int)
  | warn (w : Warn)
deriving DecidableEq

/-- The props dict of a Persona row (src/db.py lines 204-211). -/
def personaBag (hm : List (String × String)) (r : PropBag) : PropBag :=
  [("nombreCompleto", bagGet r (hmGet hm "nombre")),
   ("tipoLector", bagGet r (hmGet hm "tipolector")),
   ("id", bagGet r (hmGet hm "id"))] ++
  (match safe_int (bagGet r (hmGet hm "id")) with
   | some n => [("csvId", Val.vint n)] | none => [])

/-- Persona row (src/db.py lines 200-219). -/
def personaRowOps (hm : List (String × String)) (r : PropBag) : List Op :=
  (match safe_int (bagGet r (hmGet hm "id")) with
   | none => [Op.warn Warn.wNonNumericId] | some _ => []) ++
  [Op.mergeNode "Persona" "nombreCompleto" (personaBag hm r)]

/-- The props dict of an Autor row (src/db.py lines 229-236); the raw
identifier is stored under the original header name. -/
def autorBag (hm : List (String × String)) (r : PropBag) : PropBag :=
  [("nombreCompleto", bagGet r (hmGet hm "nombre")),
   ("nacionalidad", bagGet r (hmGet hm "nacionalidad")),
   (hmGet hm "idautor", bagGet r (hmGet hm "idautor"))] ++
  (match safe_int (bagGet r (hmGet hm "idautor")) with
   | some n => [("csvId", Val.vint n)] | none => [])

/-- Autor row (src/db.py lines 225-244). -/
def autorRowOps (hm : List (String × String)) (r : PropBag) : List Op :=
  (match safe_int (bagGet r (hmGet hm "idautor")) with
   | none => [Op.warn Warn.wNonNumericId] | some _ => []) ++
  [Op.mergeNode "Autor" "nombreCompleto" (autorBag hm r)]

/-- The props dict of a Libro row (src/db.py lines 256-269): a non-numeric
Anno merely omits añoPublicacion, a non-numeric IdLibro merely omits csvId. -/
def libroBag (hm : List (String × String)) (r : PropBag) : PropBag :=
  [("titulo", bagGet r (hmGet hm "titulo")),
   ("generoLiterario", bagGet r (hmGet hm "genero")),
   (hmGet hm "idlibro", bagGet r (hmGet hm "idlibro"))] ++
  (match safe_int (bagGet r (hmGet hm "anno")) with
   | some n => [("añoPublicacion", Val.vint n)] | none => []) ++
  (match safe_int (bagGet r (hmGet hm "idlibro")) with
   | some n => [("csvId", Val.vint n)] | none => [])

/-- Libro row (src/db.py lines 250-275). -/
def libroRowOps (hm : List (String × String)) (r : PropBag) : List Op :=
  (match safe_int (bagGet r (hmGet hm "anno")) with
   | none => [Op.warn Warn.wNonNumericAnno] | some _ => []) ++
  (match safe_int (bagGet r (hmGet hm "idlibro")) with
   | none => [Op.warn Warn.wNonNumericId] | some _ => []) ++
  [Op.mergeNode "Libro" "titulo" (libroBag hm r)]

/-- The props dict of a Club row (src/db.py lines 285-293). -/
def clubBag (hm : List (String × String)) (r : PropBag) : PropBag :=
  [("nombre", bagGet r (hmGet hm "nombre")),
   ("ubicacion", bagGet r (hmGet hm "ubicacion")),
   ("tematica", bagGet r (hmGet hm "tematica")),
   (hmGet hm "idclub", bagGet r (hmGet hm "idclub"))] ++
  (match safe_int (bagGet r (hmGet hm "idclub")) with
   | some n => [("csvId", Val.vint n)] | none => [])

/-- Club row (src/db.py lines 281-306): MERGE by csvId when numeric,
otherwise unconditional CREATE. -/
def clubRowOps (hm : List (String × String)) (r : PropBag) : List Op :=
  match safe_int (bagGet r (hmGet hm "idclub")) with
  | some _ => [Op.mergeNode "Club" "csvId" (clubBag hm r)]
  | none => [Op.warn Warn.wNonNumericId, Op.createNode "Club" (clubBag hm r)]

/-- Coalesce column lists taken verbatim from the four relationship
queries (src/db.py lines 334-339, 365-370, 396-401, 427-432). -/
def colsAutor : List String := ["csvId", "idAutor", "IdAutor", "id", "Id"]

def colsLibro : List String := ["csvId", "idlibro", "IdLibro", "id", "Id"]

def colsPersona : List String := ["csvId", "idPersona", "IdPersona", "id", "Id"]

def colsClub : List String := ["csvId", "idClub", "IdClub", "id", "Id"]

/-- Relationship row (the four per-row try blocks): both identifiers must
coerce to integers, otherwise the row is skipped with a warning. -/
def relRowOps (relType fromLabel : String) (fromCols : List String)
    (toLabel : String) (toCols : List String)
    (fromCol toCol : String) (r : PropBag) : List Op :=
  match safe_int (bagGet r fromCol), safe_int (bagGet r toCol) with
  | some a, some b => [Op.relMerge relType fromLabel fromCols a toLabel toCols b]
  | _, _ => [Op.warn Warn.wRowInvalid]

/-- Original-header column chosen by find_header for a relationship file. -/
def relCol (hm : List (String × String)) (hs : List String) (al : List String) : String :=
  ((findAliasN hs al).map (hmGet hm)).getD ""

/-- The field names DictReader reads from the first line. -/
def fileFieldnames (content : String) : List String :=
  match csvLines content with
  | [] => []
  | l :: _ => parseFields (determine_delimiter content) l

/-- The normalized header set of a file. -/
def fileHeaders (content : String) : List String :=
  hmKeys (headerMapOf (fileFieldnames content))

/-- The data rows DictReader yields (blank lines skipped). -/
def fileRows (content : String) : List PropBag :=
  (((csvLines content).drop 1).filter (fun l => l ≠ "")).map
    (fun l => mkRow (fileFieldnames content) (parseFields (determine_delimiter content) l))

/-- The operation list of one uploaded file (body of the per-file loop of
cargar_datos_manualmente, src/db.py lines 184-442). -/
def opsOfFile (content : String) : List Op :=
  if content = "" then []
  else
    let fieldnames := fileFieldnames content
    if fieldnames.isEmpty then [Op.warn Warn.wNoHeaders]
    else
      let hm := headerMapOf fieldnames
      let hs := fileHeaders content
      let rows := fileRows content
      match classify hs with
      | FileKind.persona => rows.flatMap (personaRowOps hm)
      | FileKind.autor => rows.flatMap (autorRowOps hm)
      | FileKind.libro => rows.flatMap (libroRowOps hm)
      | FileKind.club => rows.flatMap (clubRowOps hm)
      | FileKind.relAutorLibro =>
          rows.flatMap (relRowOps "ESCRIBIO" "Autor" colsAutor "Libro" colsLibro
            (relCol hm hs aliasesAutor) (relCol hm hs aliasesLibro))
      | FileKind.relPersonaLibro =>
          rows.flatMap (relRowOps "LEE" "Persona" colsPersona "Libro" colsLibro
            (relCol hm hs aliasesPersonaLibro) (relCol hm hs aliasesLibro))
      | FileKind.relClubLibro =>
          rows.flatMap (relRowOps "RECOMIENDA" "Club" colsClub "Libro" colsLibro
            (relCol hm hs aliasesClub) (relCol hm hs aliasesLibro))
      | FileKind.relPersonaClub =>
          rows.flatMap (relRowOps "PERTENECE_A" "Persona" colsPersona "Club" colsClub
            (relCol hm hs aliasesPersonaClub) (relCol hm hs aliasesClub))
      | FileKind.unrecognized => [Op.warn Warn.wUnrecognized]

/- ---------------------------------------------------------------------
   Graph store semantics.
--------------------------------------------------------------------- -/

structure Node where
  label : String
  props : Props

structure Graph where
  nodes : List Node
  edges : List (String × Nat × Nat)

abbrev Edge := String × Nat × Nat

def Graph.empty : Graph := ⟨[], []⟩

def dummyNode : Node := ⟨"", emptyProps⟩

/-- Cypher toString on a non-null value. -/
def valToStr : Val → Option String
  | Val.vstr s => some s
  | Val.vint n => some (toString n)
  | Val.vnull => none

/-- Cypher coalesce over a list of property reads. -/
def coalesceP (p : Props) : List String → Val
  | [] => Val.vnull
  | c :: rest => if p c ≠ Val.vnull then p c else coalesceP p rest

/-- Endpoint predicate of the relationship queries:
toString(coalesce(cols)) = toString(id), on nodes of the right label. -/
def endpointMatch (lbl : String) (cols : List String) (idv : Int) (n : Node) : Bool :=
  n.label = lbl && valToStr (coalesceP n.props cols) = some (toString idv)

def matchIdx (g : Graph) (lbl : String) (cols : List String) (idv : Int) : List Nat :=
  (List.range g.nodes.length).filter
    (fun i => endpointMatch lbl cols idv (g.nodes.getD i dummyNode))

/-- MERGE (n:label with key = v) matching predicate. -/
def nodeMatch (lbl key : String) (v : Val) (n : Node) : Bool :=
  n.label = lbl && n.props key = v

inductive IngestErr
  | nullMergeKey
deriving DecidableEq

/-- MERGE (n:label, key: bag.key) SET n += bag.  Neo4j refuses to merge on a
null property value; the source has no try/except around the write, so the
error propagates. -/
def mergeNodeG (g : Graph) (lbl key : String) (bag : PropBag) : Except IngestErr Graph :=
  let v := bagGet bag key
  if v = Val.vnull then Except.error IngestErr.nullMergeKey
  else if g.nodes.any (nodeMatch lbl key v) then
    let upd : Node → Node :=
      fun n => if nodeMatch lbl key v n then { n with props := plusEq n.props bag } else n
    Except.ok { g with nodes := g.nodes.map upd }
  else
    Except.ok { g with nodes := g.nodes ++ [⟨lbl, plusEq (setProp emptyProps key v) bag⟩] }

/-- CREATE (n:label) SET n += bag. -/
def createNodeG (g : Graph) (lbl : String) (bag : PropBag) : Graph :=
  { g with nodes := g.nodes ++ [⟨lbl, plusEq emptyProps bag⟩] }

def addEdges (es : List Edge) (new : List Edge) : List Edge :=
  new.foldl (fun acc e => if acc.contains e then acc else acc ++ [e]) es

/-- All endpoint index pairs matched by a relationship query. -/
def relPairs (g : Graph) (rt fl : String) (fcols : List String) (a : Int)
    (tl : String) (tcols : List String) (b : Int) : List Edge :=
  (matchIdx g fl fcols a).flatMap
    (fun i => (matchIdx g tl tcols b).map (fun j => (rt, i, j)))

/-- MATCH both endpoints, MERGE the edge, RETURN 1 AS ok: the new graph plus
whether any record was returned. -/
def relMergeG (g : Graph) (rt fl : String) (fcols : List String) (a : Int)
    (tl : String) (tcols : List String) (b : Int) : Graph × Bool :=
  let ps := relPairs g rt fl fcols a tl tcols b
  ({ g with edges := addEdges g.edges ps }, !ps.isEmpty)

/- ---------------------------------------------------------------------
   Execution: counters (created_summary), warnings, and the graph.
--------------------------------------------------------------------- -/

structure IngestState where
  graph : Graph
  counts : String → Nat
  warns : List Warn

def bump (c : String → Nat) (k : String) : String → Nat :=
  fun k0 => if k0 = k then c k0 + 1 else c k0

def applyOp (st : IngestState) (op : Op) : Except IngestErr IngestState :=
  match op with
  | Op.mergeNode l k bag =>
      (mergeNodeG st.graph l k bag).map
        (fun g => { st with graph := g, counts := bump st.counts l })
  | Op.createNode l bag =>
      Except.ok { st with graph := createNodeG st.graph l bag, counts := bump st.counts l }
  | Op.relMerge rt fl fcols a tl tcols b =>
      let gr := relMergeG st.graph rt fl fcols a tl tcols b
      if gr.2 then
        Except.ok { st with graph := gr.1, counts := bump st.counts "Relaciones" }
      else
        Except.ok { st with graph := gr.1, warns := st.warns ++ [Warn.wUnresolved] }
  | Op.warn w => Except.ok { st with warns := st.warns ++ [w] }

def execOps : IngestState → List Op → Except IngestErr IngestState
  | st, [] => Except.ok st
  | st, op :: rest =>
      match applyOp st op with
      | Except.ok st' => execOps st' rest
      | Except.error e => Except.error e

def opsOf (files : List (String × String)) : List Op :=
  files.flatMap (fun f => opsOfFile f.2)

def initState (g : Graph) : IngestState := ⟨g, fun _ => 0, []⟩

/-- Run cargar_datos_manualmente on a mapping filename -> content over an
initial graph, returning the final state (or the propagated error). -/
def runIngest (g : Graph) (files : List (String × String)) : Except IngestErr IngestState :=
  execOps (initState g) (opsOf files)

/-- The resumen string built at src/db.py lines 444-447. -/
def resumen (st : IngestState) : String :=
  "Carga Manual: OK. Personas=" ++ toString (st.counts "Persona") ++
  ", Autores=" ++ toString (st.counts "Autor") ++
  ", Libros=" ++ toString (st.counts "Libro") ++
  ", Clubes=" ++ toString (st.counts "Club") ++
  ", Relaciones=" ++ toString (st.counts "Relaciones")

/-- The full entry point: summary string or propagated failure. -/
def cargar_datos_manualmente (g : Graph) (files : List (String × String)) :
    Except IngestErr String :=
  (runIngest g files).map resumen

/-- Number of unresolved-relationship warnings logged so far. -/
def unresolvedCount (st : IngestState) : Nat :=
  st.warns.count Warn.wUnresolved

/- ---------------------------------------------------------------------
   Pure lemmas about bags and property maps.
--------------------------------------------------------------------- -/

theorem lastVal_foldl (bag : PropBag) (k : String) (acc : Option Val) :
    bag.foldl (fun a kv => if kv.1 = k then some kv.2 else a) acc =
      match bag.foldl (fun a kv => if kv.1 = k then some kv.2 else a) none with
      | some v => some v
      | none => acc := by
  induction bag generalizing acc with
  | nil => simp
  | cons p t ih =>
      simp only [List.foldl_cons]
      rw [ih (if p.1 = k then some p.2 else acc),
        ih (if p.1 = k then some p.2 else none)]
      cases h : t.foldl (fun a kv => if kv.1 = k then some kv.2 else a) none with
      | some v => rfl
      | none => by_cases hp : p.1 = k <;> simp [hp]

theorem lastVal_cons (p : String × Val) (t : PropBag) (k : String) :
    lastVal (p :: t) k =
      match lastVal t k with
      | some v => some v
      | none => if p.1 = k then some p.2 else none := by
  simp only [lastVal, List.foldl_cons]
  exact lastVal_foldl t k (if p.1 = k then some p.2 else none)

theorem lastVal_append (a b : PropBag) (k : String) :
    lastVal (a ++ b) k =
      match lastVal b k with
      | some v => some v
      | none => lastVal a k := by
  simp only [lastVal, List.foldl_append]
  exact lastVal_foldl b k (lastVal a k)

theorem lastVal_nil (k : String) : lastVal [] k = none := rfl

theorem plusEq_nil (p : Props) : plusEq p [] = p := rfl

theorem plusEq_cons (p : Props) (kv : String × Val) (t : PropBag) :
    plusEq p (kv :: t) = plusEq (setProp p kv.1 kv.2) t := rfl

theorem plusEq_append (p : Props) (a b : PropBag) :
    plusEq p (a ++ b) = plusEq (plusEq p a) b := by
  simp [plusEq, List.foldl_append]

/-- Last-writer-wins characterization of SET n += bag. -/
theorem plusEq_get (p : Props) (bag : PropBag) (k : String) :
    plusEq p bag k =
      match lastVal bag k with
      | some v => v
      | none => p k := by
  induction bag generalizing p with
  | nil => simp [plusEq, lastVal]
  | cons kv t ih =>
      rw [plusEq_cons, ih, lastVal_cons]
      cases h : lastVal t k with
      | some v => rfl
      | none =>
          by_cases hk : kv.1 = k
          · subst hk; simp [setProp]
          · have hk' : ¬ k = kv.1 := fun h => hk h.symm
            simp [setProp, hk, hk']

/-- Applying the same bag twice is the same as applying it once. -/
theorem plusEq_absorb (p : Props) (bag : PropBag) (k : String) :
    plusEq (plusEq p bag) bag k = plusEq p bag k := by
  rw [plusEq_get (plusEq p bag), plusEq_get p]
  cases h : lastVal bag k with
  | some v => simp
  | none => simp [plusEq_get, h]

theorem bagGet_eq_some {bag : PropBag} {k : String} {v : Val}
    (hv : v ≠ Val.vnull) (h : bagGet bag k = v) : lastVal bag k = some v := by
  unfold bagGet at h
  cases hl : lastVal bag k with
  | some w => rw [hl] at h; simp at h; rw [h]
  | none =>
      rw [hl] at h
      simp at h
      exact absurd h.symm hv

theorem takeWhile_all {p : Char → Bool} {a : List Char}
    (ha : ∀ x ∈ a, p x = true) : a.takeWhile p = a := by
  induction a with
  | nil => rfl
  | cons x t ih =>
      have hx : p x = true := ha x (List.mem_cons_self x t)
      simp only [List.takeWhile_cons, hx]
      exact congrArg (List.cons x) (ih (fun y hy => ha y (List.mem_cons_of_mem x hy)))

theorem takeWhile_append_stop {p : Char → Bool} {a : List Char} {c : Char}
    (b : List Char) (ha : ∀ x ∈ a, p x = true) (hc : p c = false) :
    (a ++ c :: b).takeWhile p = a := by
  induction a with
  | nil => simp [List.takeWhile_cons, hc]
  | cons x t ih =>
      have hx : p x = true := ha x (List.mem_cons_self x t)
      simp only [List.cons_append, List.takeWhile_cons, hx]
      exact congrArg (List.cons x) (ih (fun y hy => ha y (List.mem_cons_of_mem x hy)))

/-- Claim C9 (confirmed): the delimiter sniffer is a total function of the
raw text; it inspects only the first line, returns tab if a tab is present
there, else semicolon if present, else comma if present, and defaults to tab
when none is found or the input is empty, never failing. -/
theorem delimiter_sniffer_spec :
    (∀ content : String,
       determine_delimiter content = '\t' ∨ determine_delimiter content = ';' ∨
       determine_delimiter content = ',') ∧
    (∀ l rest : String, (∀ c ∈ l.data, isPyLineBreak c = false) →
       determine_delimiter (l ++ "\n" ++ rest) = determine_delimiter l) ∧
    (∀ content : String,
       ((content.data.takeWhile (fun c => !(isPyLineBreak c))).contains '\t' = true →
          determine_delimiter content = '\t') ∧
       ((content.data.takeWhile (fun c => !(isPyLineBreak c))).contains '\t' = false →
        (content.data.takeWhile (fun c => !(isPyLineBreak c))).contains ';' = true →
          determine_delimiter content = ';') ∧
       ((content.data.takeWhile (fun c => !(isPyLineBreak c))).contains '\t' = false →
        (content.data.takeWhile (fun c => !(isPyLineBreak c))).contains ';' = false →
        (content.data.takeWhile (fun c => !(isPyLineBreak c))).contains ',' = true →
          determine_delimiter content = ',') ∧
       ((content.data.takeWhile (fun c => !(isPyLineBreak c))).contains '\t' = false →
        (content.data.takeWhile (fun c => !(isPyLineBreak c))).contains ';' = false →
        (content.data.takeWhile (fun c => !(isPyLineBreak c))).contains ',' = false →
          determine_delimiter content = '\t')) ∧
    determine_delimiter "" = '\t' := by
  refine ⟨?_, ?_, ?_, rfl⟩
  · intro content
    simp only [determine_delimiter]
    split
    · exact Or.inl rfl
    · split
      · exact Or.inr (Or.inl rfl)
      · split
        · exact Or.inr (Or.inr rfl)
        · exact Or.inl rfl
  · intro l rest h
    have hdata : (l ++ "\n" ++ rest).data = l.data ++ '\n' :: rest.data := by
      simp [String.data_append]
    have hnl : (fun c => !(isPyLineBreak c)) '\n' = false := by decide
    have htk : ((l ++ "\n" ++ rest).data.takeWhile (fun c => !(isPyLineBreak c))) = l.data := by
      rw [hdata]
      exact takeWhile_append_stop rest.data
        (fun x hx => by simp [h x hx]) hnl
    have htl : (l.data.takeWhile (fun c => !(isPyLineBreak c))) = l.data :=
      takeWhile_all (fun x hx => by simp [h x hx])
    simp only [determine_delimiter, htk, htl]
  · intro content
    refine ⟨?_, ?_, ?_, ?_⟩
    · intro h1; simp at h1; simp [determine_delimiter, h1]
    · intro h1 h2; simp at h1 h2; simp [determine_delimiter, h1, h2]
    · intro h1 h2 h3; simp at h1 h2 h3; simp [determine_delimiter, h1, h2, h3]
    · intro h1 h2 h3; simp at h1 h2 h3; simp [determine_delimiter, h1, h2, h3]

/-- Witness for C9 at concrete inputs: a first line with a tab among other
delimiters picks tab even though the delimiters also occur later; commas only
pick comma; no delimiter defaults to tab; empty input defaults to tab. -/
theorem delimiter_sniffer_spec_witness :
    determine_delimiter "a,b;c\td\nx;y" = '\t' ∧
    determine_delimiter ("a,b" ++ "\n" ++ "x\ty") = determine_delimiter "a,b" ∧
    determine_delimiter "a,b" = ',' ∧
    determine_delimiter "ab" = '\t' ∧
    determine_delimiter "" = '\t' := by
  refine ⟨?_, ?_, ?_, ?_, delimiter_sniffer_spec.2.2.2⟩
  · exact (delimiter_sniffer_spec.2.2.1 "a,b;c\td\nx;y").1 (by decide)
  · exact delimiter_sniffer_spec.2.1 "a,b" "x\ty" (by decide)
  · exact ((delimiter_sniffer_spec.2.2.1 "a,b").2.2.1) (by decide) (by decide) (by decide)
  · exact ((delimiter_sniffer_spec.2.2.1 "ab").2.2.2) (by decide) (by decide) (by decide)

/- ---------------------------------------------------------------------
   Claim C6: end-to-end scenario 1.
--------------------------------------------------------------------- -/

def scenario1Files : List (String × String) :=
  [("p.csv", "id;Nombre;TipoLector\n7;Ana Pérez;Frecuente")]

def scenario1Summary : String :=
  "Carga Manual: OK. Personas=1, Autores=0, Libros=0, Clubes=0, Relaciones=0"

/-- Claim C6 as stated is false at its own concrete input: ingesting the
scenario-1 file returns the summary string with the plural counter name
Personas=1; the string Persona=1 required by the claim occurs nowhere in the
returned summary. -/
theorem scenario1_summary_lacks_persona_eq_one :
    cargar_datos_manualmente Graph.empty scenario1Files = Except.ok scenario1Summary ∧
    ¬ List.IsInfix "Persona=1".data scenario1Summary.data := by
  exact ⟨by rfl, by decide⟩

/-- Claim C6 (corrected): ingesting the single file with headers
id;Nombre;TipoLector and data row 7;Ana Pérez;Frecuente creates exactly one
Persona node whose natural key is Ana Pérez, whose numeric surrogate csvId is
7 and whose tipoLector is Frecuente, and the returned summary reports
Personas=1 (the plural counter name used by the source). -/
theorem scenario1_creates_one_persona :
    (runIngest Graph.empty scenario1Files).toOption.map
      (fun s =>
        (s.graph.nodes.length,
         (s.graph.nodes.getD 0 dummyNode).label,
         (s.graph.nodes.getD 0 dummyNode).props "nombreCompleto",
         (s.graph.nodes.getD 0 dummyNode).props "csvId",
         (s.graph.nodes.getD 0 dummyNode).props "tipoLector",
         resumen s))
      = some (1, "Persona", Val.vstr "Ana Pérez", Val.vint 7, Val.vstr "Frecuente",
              scenario1Summary) ∧
    List.IsInfix "Personas=1".data scenario1Summary.data := by
  exact ⟨by decide, by decide⟩

/- ---------------------------------------------------------------------
   Claim C5: unresolved relationship endpoints.
--------------------------------------------------------------------- -/

theorem coalesce_mem {p : Props} {cols : List String}
    (h : coalesceP p cols ≠ Val.vnull) : ∃ c ∈ cols, p c = coalesceP p cols := by
  induction cols with
  | nil => exact absurd rfl h
  | cons c rest ih =>
      by_cases hc : p c ≠ Val.vnull
      · refine ⟨c, List.mem_cons_self c rest, ?_⟩
        simp [coalesceP, hc]
      · have hco : coalesceP p (c :: rest) = coalesceP p rest := by simp [coalesceP, hc]
        rw [hco] at h ⊢
        obtain ⟨d, hd, he⟩ := ih h
        exact ⟨d, List.mem_cons_of_mem c hd, he⟩

theorem matchIdx_nil_of_noStrategy {g : Graph} {lbl : String} {cols : List String} {idv : Int}
    (h : ∀ n ∈ g.nodes, n.label = lbl → ∀ c ∈ cols, valToStr (n.props c) ≠ some (toString idv)) :
    matchIdx g lbl cols idv = [] := by
  unfold matchIdx
  rw [List.filter_eq_nil_iff]
  intro i hi
  intro hmatch
  have hlen : i < g.nodes.length := List.mem_range.mp hi
  have hmem : g.nodes.getD i dummyNode ∈ g.nodes := by
    rw [List.getD_eq_getElem g.nodes dummyNode hlen]
    exact List.getElem_mem hlen
  unfold endpointMatch at hmatch
  rw [Bool.and_eq_true] at hmatch
  obtain ⟨hl, hv⟩ := hmatch
  rw [decide_eq_true_eq] at hl hv
  have hnn : coalesceP (g.nodes.getD i dummyNode).props cols ≠ Val.vnull := by
    intro hz
    rw [hz] at hv
    exact Option.noConfusion hv
  obtain ⟨c, hc, he⟩ := coalesce_mem hnn
  exact h _ hmem hl c hc (by rw [he]; exact hv)

theorem flatMap_const_nil {α : Type} (l : List α) :
    (l.flatMap (fun _ => ([] : List Edge))) = [] := by
  induction l with
  | nil => rfl
  | cons x t ih => simp [List.flatMap_cons, ih]

theorem relPairs_nil {g : Graph} {rt fl : String} {fcols : List String} {a : Int}
    {tl : String} {tcols : List String} {b : Int}
    (h : matchIdx g fl fcols a = [] ∨ matchIdx g tl tcols b = []) :
    relPairs g rt fl fcols a tl tcols b = [] := by
  unfold relPairs
  cases h with
  | inl h => rw [h]; rfl
  | inr h => rw [h]; exact flatMap_const_nil _

/-- Claim C5 (confirmed): a relationship row whose two endpoint values parsed
as integers but where either endpoint matches no existing node under any
resolution-strategy column creates no edge, leaves the graph and the
Relaciones counter unchanged, logs exactly one unresolved warning, raises no
error, and processing continues with the next row. -/
theorem relationship_unresolved_row (st : IngestState) (rt fl : String)
    (fcols : List String) (a : Int) (tl : String) (tcols : List String) (b : Int)
    (rest : List Op)
    (h : (∀ n ∈ st.graph.nodes, n.label = fl →
            ∀ c ∈ fcols, valToStr (n.props c) ≠ some (toString a)) ∨
         (∀ n ∈ st.graph.nodes, n.label = tl →
            ∀ c ∈ tcols, valToStr (n.props c) ≠ some (toString b))) :
    applyOp st (Op.relMerge rt fl fcols a tl tcols b) =
      Except.ok { st with warns := st.warns ++ [Warn.wUnresolved] } ∧
    execOps st (Op.relMerge rt fl fcols a tl tcols b :: rest) =
      execOps { st with warns := st.warns ++ [Warn.wUnresolved] } rest ∧
    unresolvedCount { st with warns := st.warns ++ [Warn.wUnresolved] } =
      unresolvedCount st + 1 := by
  have hpairs : relPairs st.graph rt fl fcols a tl tcols b = [] := by
    apply relPairs_nil
    cases h with
    | inl h => exact Or.inl (matchIdx_nil_of_noStrategy h)
    | inr h => exact Or.inr (matchIdx_nil_of_noStrategy h)
  have happ : applyOp st (Op.relMerge rt fl fcols a tl tcols b) =
      Except.ok { st with warns := st.warns ++ [Warn.wUnresolved] } := by
    simp only [applyOp, relMergeG, hpairs]
    rfl
  refine ⟨happ, ?_, ?_⟩
  · show (match applyOp st (Op.relMerge rt fl fcols a tl tcols b) with
      | Except.ok st' => execOps st' rest
      | Except.error e => Except.error e) = _
    rw [happ]
  · simp [unresolvedCount, List.count_append]

/-- Witness for C5: an empty graph plus the relationship row 99 to 10 in a
Club to Libro file: no node exists, so the step only logs one unresolved
warning and execution continues. -/
theorem relationship_unresolved_row_witness :
    applyOp (initState Graph.empty) (Op.relMerge "RECOMIENDA" "Club" colsClub 99 "Libro" colsLibro 10) =
      Except.ok { initState Graph.empty with warns := [Warn.wUnresolved] } ∧
    execOps (initState Graph.empty)
        (Op.relMerge "RECOMIENDA" "Club" colsClub 99 "Libro" colsLibro 10 :: []) =
      execOps { initState Graph.empty with warns := [Warn.wUnresolved] } [] ∧
    unresolvedCount { initState Graph.empty with warns := [Warn.wUnresolved] } =
      unresolvedCount (initState Graph.empty) + 1 := by
  have h := relationship_unresolved_row (initState Graph.empty) "RECOMIENDA" "Club"
    colsClub 99 "Libro" colsLibro 10 []
    (Or.inl (by intro n hn; exact absurd hn (by simp [initState, Graph.empty])))
  simpa [initState] using h

/- ---------------------------------------------------------------------
   Claim C8: non-numeric identifiers degrade the row, never skip it.
--------------------------------------------------------------------- -/

theorem headerMap_norm_aux (fns : List String) (m : List (String × String))
    (hm : ∀ p ∈ m, norm p.2 = p.1) :
    ∀ p ∈ fns.foldl (fun m h => upsertAssoc m (norm h) h) m, norm p.2 = p.1 := by
  induction fns generalizing m with
  | nil => exact hm
  | cons f t ih =>
      refine ih (upsertAssoc m (norm f) f) ?_
      intro p hp
      unfold upsertAssoc at hp
      by_cases hany : m.any (fun p => p.1 = norm f)
      · rw [if_pos hany] at hp
        obtain ⟨q, hq, he⟩ := List.mem_map.mp hp
        by_cases hq1 : q.1 = norm f
        · rw [if_pos hq1] at he; rw [← he]
        · rw [if_neg hq1] at he; rw [← he]; exact hm q hq
      · rw [if_neg hany] at hp
        rcases List.mem_append.mp hp with h1 | h2
        · exact hm p h1
        · rw [List.mem_singleton.mp h2]

theorem headerMap_norm (fns : List String) :
    ∀ p ∈ headerMapOf fns, norm p.2 = p.1 :=
  headerMap_norm_aux fns [] (by intro p hp; exact absurd hp (List.not_mem_nil p))

theorem hmGet_norm (fns : List String) (k : String) :
    hmGet (headerMapOf fns) k = "" ∨ norm (hmGet (headerMapOf fns) k) = k := by
  unfold hmGet
  cases hf : (headerMapOf fns).find? (fun p => p.1 = k) with
  | none => exact Or.inl rfl
  | some p =>
      right
      have hp1 : p.1 = k := by
        have := List.find?_some hf
        exact of_decide_eq_true this
      have hmem : p ∈ headerMapOf fns := List.mem_of_find?_eq_some hf
      show norm (((some p).map (fun p => p.2)).getD "") = k
      simp only [Option.map_some', Option.getD_some]
      rw [headerMap_norm fns p hmem, hp1]

/-- The original header recovered for a normalized name can never be one of
the fixed property names the source assigns directly, because those do not
normalize to the looked-up key. -/
theorem hmGet_ne_of_norm {fns : List String} {k t : String}
    (h1 : norm t ≠ k) (h2 : t ≠ "") : hmGet (headerMapOf fns) k ≠ t := by
  rcases hmGet_norm fns k with h | h
  · rw [h]; exact fun he => h2 he.symm
  · intro he; rw [he] at h; exact h1 h

/-- Claim C8 (confirmed): a node row whose identifier fails integer coercion
is not skipped: Persona, Autor and Libro rows still merge by their natural
key and a Club row is still created; the raw identifier value is kept as a
plain attribute under its column name and csvId is absent from the bag; a
Libro row whose year fails integer coercion only omits añoPublicacion and is
likewise not skipped. -/
theorem nonnumeric_id_degrades :
    (∀ (fns : List String) (r : PropBag),
       safe_int (bagGet r (hmGet (headerMapOf fns) "id")) = none →
       personaRowOps (headerMapOf fns) r =
         [Op.warn Warn.wNonNumericId,
          Op.mergeNode "Persona" "nombreCompleto" (personaBag (headerMapOf fns) r)] ∧
       lastVal (personaBag (headerMapOf fns) r) "csvId" = none ∧
       bagGet (personaBag (headerMapOf fns) r) "id" =
         bagGet r (hmGet (headerMapOf fns) "id")) ∧
    (∀ (fns : List String) (r : PropBag),
       safe_int (bagGet r (hmGet (headerMapOf fns) "idautor")) = none →
       autorRowOps (headerMapOf fns) r =
         [Op.warn Warn.wNonNumericId,
          Op.mergeNode "Autor" "nombreCompleto" (autorBag (headerMapOf fns) r)] ∧
       lastVal (autorBag (headerMapOf fns) r) "csvId" = none ∧
       bagGet (autorBag (headerMapOf fns) r) (hmGet (headerMapOf fns) "idautor") =
         bagGet r (hmGet (headerMapOf fns) "idautor")) ∧
    (∀ (fns : List String) (r : PropBag),
       safe_int (bagGet r (hmGet (headerMapOf fns) "idlibro")) = none →
       lastVal (libroBag (headerMapOf fns) r) "csvId" = none ∧
       Op.mergeNode "Libro" "titulo" (libroBag (headerMapOf fns) r) ∈
         libroRowOps (headerMapOf fns) r ∧
       bagGet (libroBag (headerMapOf fns) r) (hmGet (headerMapOf fns) "idlibro") =
         bagGet r (hmGet (headerMapOf fns) "idlibro")) ∧
    (∀ (fns : List String) (r : PropBag),
       safe_int (bagGet r (hmGet (headerMapOf fns) "idclub")) = none →
       clubRowOps (headerMapOf fns) r =
         [Op.warn Warn.wNonNumericId, Op.createNode "Club" (clubBag (headerMapOf fns) r)] ∧
       lastVal (clubBag (headerMapOf fns) r) "csvId" = none ∧
       bagGet (clubBag (headerMapOf fns) r) (hmGet (headerMapOf fns) "idclub") =
         bagGet r (hmGet (headerMapOf fns) "idclub")) ∧
    (∀ (fns : List String) (r : PropBag),
       safe_int (bagGet r (hmGet (headerMapOf fns) "anno")) = none →
       lastVal (libroBag (headerMapOf fns) r) "añoPublicacion" = none ∧
       Op.mergeNode "Libro" "titulo" (libroBag (headerMapOf fns) r) ∈
         libroRowOps (headerMapOf fns) r) := by
  refine ⟨?_, ?_, ?_, ?_, ?_⟩
  · intro fns r h
    refine ⟨by simp [personaRowOps, h], ?_, ?_⟩
    · simp [personaBag, h, lastVal_append, lastVal_cons, lastVal]
    · simp only [personaBag, h, List.append_nil]
      simp [bagGet, lastVal_cons, lastVal_nil]
  · intro fns r h
    have hne : hmGet (headerMapOf fns) "idautor" ≠ "csvId" :=
      hmGet_ne_of_norm (by decide) (by decide)
    refine ⟨by simp [autorRowOps, h], ?_, ?_⟩
    · simp [autorBag, h, lastVal_append, lastVal_cons, lastVal, hne]
    · simp only [autorBag, h, List.append_nil]
      simp [bagGet, lastVal_cons, lastVal_nil]
  · intro fns r h
    have hne : hmGet (headerMapOf fns) "idlibro" ≠ "csvId" :=
      hmGet_ne_of_norm (by decide) (by decide)
    have hne2 : hmGet (headerMapOf fns) "idlibro" ≠ "añoPublicacion" :=
      hmGet_ne_of_norm (by decide) (by decide)
    refine ⟨?_, by simp [libroRowOps], ?_⟩
    · cases ha : safe_int (bagGet r (hmGet (headerMapOf fns) "anno")) with
      | none => simp [libroBag, h, ha, lastVal_append, lastVal_cons, lastVal, hne]
      | some n => simp [libroBag, h, ha, lastVal_append, lastVal_cons, lastVal, hne]
    · cases ha : safe_int (bagGet r (hmGet (headerMapOf fns) "anno")) with
      | none =>
          simp only [libroBag, h, ha, List.append_nil]
          simp [bagGet, lastVal_cons, lastVal_nil]
      | some n =>
          have hne2s : "añoPublicacion" ≠ hmGet (headerMapOf fns) "idlibro" :=
            fun he => hne2 he.symm
          simp only [libroBag, h, ha, List.append_nil]
          simp [bagGet, lastVal_append, lastVal_cons, lastVal_nil, hne2s]
  · intro fns r h
    have hne : hmGet (headerMapOf fns) "idclub" ≠ "csvId" :=
      hmGet_ne_of_norm (by decide) (by decide)
    refine ⟨by simp [clubRowOps, h], ?_, ?_⟩
    · simp [clubBag, h, lastVal_append, lastVal_cons, lastVal, hne]
    · simp only [clubBag, h, List.append_nil]
      simp [bagGet, lastVal_cons, lastVal_nil]
  · intro fns r h
    have hne2 : hmGet (headerMapOf fns) "idlibro" ≠ "añoPublicacion" :=
      hmGet_ne_of_norm (by decide) (by decide)
    refine ⟨?_, by simp [libroRowOps]⟩
    cases hc : safe_int (bagGet r (hmGet (headerMapOf fns) "idlibro")) with
    | none => simp [libroBag, h, hc, lastVal_append, lastVal_cons, lastVal, hne2]
    | some n => simp [libroBag, h, hc, lastVal_append, lastVal_cons, lastVal, hne2]

/-- Witness for C8 at a concrete non-numeric row: Persona row id equal to X7
still merges by name with csvId absent; Libro row with year MCMXCII keeps
the row and omits añoPublicacion. -/
theorem nonnumeric_id_degrades_witness :
    (safe_int (bagGet (mkRow ["id", "Nombre", "TipoLector"] ["X7", "Ana", "F"])
        (hmGet (headerMapOf ["id", "Nombre", "TipoLector"]) "id")) = none ∧
     personaRowOps (headerMapOf ["id", "Nombre", "TipoLector"])
         (mkRow ["id", "Nombre", "TipoLector"] ["X7", "Ana", "F"]) =
       [Op.warn Warn.wNonNumericId,
        Op.mergeNode "Persona" "nombreCompleto"
          (personaBag (headerMapOf ["id", "Nombre", "TipoLector"])
            (mkRow ["id", "Nombre", "TipoLector"] ["X7", "Ana", "F"]))] ∧
     lastVal (personaBag (headerMapOf ["id", "Nombre", "TipoLector"])
        (mkRow ["id", "Nombre", "TipoLector"] ["X7", "Ana", "F"])) "csvId" = none) ∧
    (safe_int (bagGet (mkRow ["IdLibro", "Titulo", "Genero", "Anno"] ["9", "T", "G", "MCMXCII"])
        (hmGet (headerMapOf ["IdLibro", "Titulo", "Genero", "Anno"]) "anno")) = none ∧
     lastVal (libroBag (headerMapOf ["IdLibro", "Titulo", "Genero", "Anno"])
        (mkRow ["IdLibro", "Titulo", "Genero", "Anno"] ["9", "T", "G", "MCMXCII"]))
        "añoPublicacion" = none ∧
     Op.mergeNode "Libro" "titulo"
        (libroBag (headerMapOf ["IdLibro", "Titulo", "Genero", "Anno"])
          (mkRow ["IdLibro", "Titulo", "Genero", "Anno"] ["9", "T", "G", "MCMXCII"])) ∈
       libroRowOps (headerMapOf ["IdLibro", "Titulo", "Genero", "Anno"])
         (mkRow ["IdLibro", "Titulo", "Genero", "Anno"] ["9", "T", "G", "MCMXCII"])) := by
  have h1 := (nonnumeric_id_degrades.1) ["id", "Nombre", "TipoLector"]
    (mkRow ["id", "Nombre", "TipoLector"] ["X7", "Ana", "F"]) (by decide)
  have h2 := (nonnumeric_id_degrades.2.2.2.2) ["IdLibro", "Titulo", "Genero", "Anno"]
    (mkRow ["IdLibro", "Titulo", "Genero", "Anno"] ["9", "T", "G", "MCMXCII"]) (by decide)
  exact ⟨⟨by decide, h1.1, h1.2.1⟩, ⟨by decide, h2.1, h2.2⟩⟩

/- ---------------------------------------------------------------------
   Claim C2: merge-key selection and merge semantics of the Upsert Engine.
--------------------------------------------------------------------- -/

theorem getD_map_nodes (l : List Node) (f : Node → Node) (i : Nat) (hi : i < l.length) :
    (l.map f).getD i dummyNode = f (l.getD i dummyNode) := by
  rw [List.getD_eq_getElem _ _ (by simpa using hi), List.getD_eq_getElem _ _ hi,
    List.getElem_map]

/-- What a successful node MERGE does: on a match, every matching node gets
the bag applied (listed keys overwritten or added, unlisted keys untouched)
and no node is added; on no match, exactly one node carrying the merge key
and the bag is appended.  Edges are never touched. -/
theorem mergeNodeG_spec (g : Graph) (lbl key : String) (bag : PropBag) (g' : Graph)
    (hok : mergeNodeG g lbl key bag = Except.ok g') :
    bagGet bag key ≠ Val.vnull ∧
    g'.edges = g.edges ∧
    (g.nodes.any (nodeMatch lbl key (bagGet bag key)) = true →
       g'.nodes.length = g.nodes.length ∧
       ∀ i, i < g.nodes.length →
         (nodeMatch lbl key (bagGet bag key) (g.nodes.getD i dummyNode) = true →
            (g'.nodes.getD i dummyNode).label = (g.nodes.getD i dummyNode).label ∧
            ∀ k0, (g'.nodes.getD i dummyNode).props k0 =
              match lastVal bag k0 with
              | some v => v
              | none => (g.nodes.getD i dummyNode).props k0) ∧
         (nodeMatch lbl key (bagGet bag key) (g.nodes.getD i dummyNode) = false →
            g'.nodes.getD i dummyNode = g.nodes.getD i dummyNode)) ∧
    (g.nodes.any (nodeMatch lbl key (bagGet bag key)) = false →
       g'.nodes = g.nodes ++
         [⟨lbl, plusEq (setProp emptyProps key (bagGet bag key)) bag⟩]) := by
  unfold mergeNodeG at hok
  by_cases hv : bagGet bag key = Val.vnull
  · rw [if_pos hv] at hok; exact absurd hok (by simp)
  · rw [if_neg hv] at hok
    refine ⟨hv, ?_, ?_, ?_⟩
    · by_cases hm : g.nodes.any (nodeMatch lbl key (bagGet bag key)) = true
      · rw [if_pos hm] at hok
        have := Except.ok.inj hok
        rw [← this]
      · rw [if_neg hm] at hok
        have := Except.ok.inj hok
        rw [← this]
    · intro hm
      rw [if_pos hm] at hok
      have hg := Except.ok.inj hok
      subst hg
      refine ⟨by simp, ?_⟩
      intro i hi
      constructor
      · intro hmat
        rw [getD_map_nodes _ _ i hi, hmat]
        refine ⟨rfl, ?_⟩
        intro k0
        simp only [if_pos rfl]
        exact plusEq_get _ bag k0
      · intro hmat
        rw [getD_map_nodes _ _ i hi, hmat]
        simp
    · intro hm
      rw [if_neg (by simp [hm])] at hok
      have hg := Except.ok.inj hok
      rw [← hg]

/-- Modelled from the spec (claim C2 wording): an upsert that matches the
node to merge into by the numeric surrogate csvId when present in the bag,
else by the natural key, else creates unconditionally. -/
def upsertSpecC2 (g : Graph) (lbl naturalKey : String) (bag : PropBag) : Graph :=
  match lastVal bag "csvId" with
  | some v =>
      if g.nodes.any (nodeMatch lbl "csvId" v) then
        { g with nodes := g.nodes.map (fun n =>
            if nodeMatch lbl "csvId" v n then { n with props := plusEq n.props bag } else n) }
      else { g with nodes := g.nodes ++ [⟨lbl, plusEq emptyProps bag⟩] }
  | none =>
      match lastVal bag naturalKey with
      | some v =>
          if g.nodes.any (nodeMatch lbl naturalKey v) then
            { g with nodes := g.nodes.map (fun n =>
                if nodeMatch lbl naturalKey v n then { n with props := plusEq n.props bag } else n) }
          else { g with nodes := g.nodes ++ [⟨lbl, plusEq emptyProps bag⟩] }
      | none => { g with nodes := g.nodes ++ [⟨lbl, plusEq emptyProps bag⟩] }

/-- A Persona node named Ana with numeric surrogate 3 already in the graph. -/
def c2Graph : Graph :=
  ⟨[⟨"Persona", plusEq emptyProps [("nombreCompleto", Val.vstr "Ana"), ("csvId", Val.vint 3)]⟩], []⟩

def c2File : List (String × String) := [("p.csv", "id;Nombre;TipoLector\n7;Ana;F")]

def c2Bag : PropBag :=
  personaBag (headerMapOf ["id", "Nombre", "TipoLector"])
    (mkRow ["id", "Nombre", "TipoLector"] ["7", "Ana", "F"])

/-- Claim C2 as stated is false: ingesting a Persona row whose bag carries
csvId 7 into a graph whose only Persona is Ana with csvId 3 merges into that
node by the natural key (one node remains and its csvId is overwritten to 7),
whereas the policy described by the claim (match by csvId when present in
the bag) finds no csvId-7 node and would create a second node. -/
theorem upsert_key_selection_cx :
    (runIngest c2Graph c2File).toOption.map
      (fun s => (s.graph.nodes.length,
        decide ((s.graph.nodes.getD 0 dummyNode).props "csvId" = Val.vint 7))) =
      some (1, true) ∧
    (upsertSpecC2 c2Graph "Persona" "nombreCompleto" c2Bag).nodes.length = 2 := by
  exact ⟨by decide, by decide⟩

/-- Claim C2 (corrected): the Upsert Engine merges Persona, Autor and Libro
rows by their natural key (nombreCompleto, nombreCompleto, titulo) always,
even when the bag carries the numeric surrogate csvId; only Club merges by
csvId when it is present and falls back to unconditional creation otherwise;
a merge overwrites matching properties, adds new ones, and never removes
unlisted ones, and a merge that matches adds no node. -/
theorem upsert_engine_spec :
    (∀ (hm : List (String × String)) (r : PropBag) (n : Int),
       safe_int (bagGet r (hmGet hm "id")) = some n →
       personaRowOps hm r = [Op.mergeNode "Persona" "nombreCompleto" (personaBag hm r)] ∧
       lastVal (personaBag hm r) "csvId" = some (Val.vint n)) ∧
    (∀ (hm : List (String × String)) (r : PropBag) (n : Int),
       safe_int (bagGet r (hmGet hm "idautor")) = some n →
       autorRowOps hm r = [Op.mergeNode "Autor" "nombreCompleto" (autorBag hm r)] ∧
       lastVal (autorBag hm r) "csvId" = some (Val.vint n)) ∧
    (∀ (hm : List (String × String)) (r : PropBag) (n : Int),
       safe_int (bagGet r (hmGet hm "idlibro")) = some n →
       Op.mergeNode "Libro" "titulo" (libroBag hm r) ∈ libroRowOps hm r ∧
       lastVal (libroBag hm r) "csvId" = some (Val.vint n)) ∧
    (∀ (hm : List (String × String)) (r : PropBag) (n : Int),
       safe_int (bagGet r (hmGet hm "idclub")) = some n →
       clubRowOps hm r = [Op.mergeNode "Club" "csvId" (clubBag hm r)]) ∧
    (∀ (hm : List (String × String)) (r : PropBag),
       safe_int (bagGet r (hmGet hm "idclub")) = none →
       clubRowOps hm r = [Op.warn Warn.wNonNumericId, Op.createNode "Club" (clubBag hm r)]) ∧
    (∀ (g : Graph) (lbl key : String) (bag : PropBag) (g' : Graph),
       mergeNodeG g lbl key bag = Except.ok g' →
       g.nodes.any (nodeMatch lbl key (bagGet bag key)) = true →
       g'.nodes.length = g.nodes.length ∧
       ∀ i, i < g.nodes.length →
         (nodeMatch lbl key (bagGet bag key) (g.nodes.getD i dummyNode) = true →
            ∀ k0, (g'.nodes.getD i dummyNode).props k0 =
              match lastVal bag k0 with
              | some v => v
              | none => (g.nodes.getD i dummyNode).props k0) ∧
         (nodeMatch lbl key (bagGet bag key) (g.nodes.getD i dummyNode) = false →
            g'.nodes.getD i dummyNode = g.nodes.getD i dummyNode)) := by
  refine ⟨?_, ?_, ?_, ?_, ?_, ?_⟩
  · intro hm r n h
    refine ⟨by simp [personaRowOps, h], ?_⟩
    simp [personaBag, h, lastVal_append, lastVal_cons, lastVal_nil]
  · intro hm r n h
    refine ⟨by simp [autorRowOps, h], ?_⟩
    simp [autorBag, h, lastVal_append, lastVal_cons, lastVal_nil]
  · intro hm r n h
    refine ⟨by simp [libroRowOps], ?_⟩
    cases ha : safe_int (bagGet r (hmGet hm "anno")) with
    | none => simp [libroBag, h, ha, lastVal_append, lastVal_cons, lastVal_nil]
    | some m => simp [libroBag, h, ha, lastVal_append, lastVal_cons, lastVal_nil]
  · intro hm r n h
    simp [clubRowOps, h]
  · intro hm r h
    simp [clubRowOps, h]
  · intro g lbl key bag g' hok hm
    have hs := mergeNodeG_spec g lbl key bag g' hok
    obtain ⟨hlen, hupd⟩ := hs.2.2.1 hm
    refine ⟨hlen, ?_⟩
    intro i hi
    exact ⟨fun hmat => ((hupd i hi).1 hmat).2, (hupd i hi).2⟩

/-- Witness for C2 amended: the concrete Persona row id 7, Ana, F produces a
merge by nombreCompleto carrying csvId 7; merging it into the graph whose
Persona Ana has csvId 3 matches that node, keeps one node, overwrites csvId
and keeps the unlisted property intact. -/
theorem upsert_engine_spec_witness :
    (personaRowOps (headerMapOf ["id", "Nombre", "TipoLector"])
        (mkRow ["id", "Nombre", "TipoLector"] ["7", "Ana", "F"]) =
      [Op.mergeNode "Persona" "nombreCompleto" c2Bag] ∧
     lastVal c2Bag "csvId" = some (Val.vint 7)) ∧
    (∀ g', mergeNodeG c2Graph "Persona" "nombreCompleto" c2Bag = Except.ok g' →
       g'.nodes.length = c2Graph.nodes.length) := by
  constructor
  · exact upsert_engine_spec.1 (headerMapOf ["id", "Nombre", "TipoLector"])
      (mkRow ["id", "Nombre", "TipoLector"] ["7", "Ana", "F"]) 7 (by decide)
  · intro g' hok
    exact ((upsert_engine_spec.2.2.2.2.2) c2Graph "Persona" "nombreCompleto" c2Bag g'
      hok (by decide)).1

/- ---------------------------------------------------------------------
   Claim C3: endpoint identity resolution.
--------------------------------------------------------------------- -/

/-- Modelled from the spec (claim C3 wording): try each identifier column in
order and let the first column whose string value equals the endpoint value
win, regardless of whether earlier columns are present. -/
def endpointMatchSpecC3 (lbl : String) (cols : List String) (idv : Int) (n : Node) : Bool :=
  n.label = lbl && cols.any (fun c => valToStr (n.props c) = some (toString idv))

/-- An Autor whose csvId is 5 but whose plain id attribute is the string 7,
as the add_node endpoint of the application can create. -/
def c3Autor : Node :=
  ⟨"Autor", plusEq emptyProps
    [("nombreCompleto", Val.vstr "B"), ("csvId", Val.vint 5), ("id", Val.vstr "7")]⟩

def c3Libro : Node :=
  ⟨"Libro", plusEq emptyProps [("titulo", Val.vstr "T"), ("csvId", Val.vint 10)]⟩

def c3Graph : Graph := ⟨[c3Autor, c3Libro], []⟩

def c3File : List (String × String) := [("r.csv", "idAutor;idLibro\n7;10")]

/-- Claim C3 as stated is false: for endpoint value 7 the policy the claim
describes (try csvId, then the legacy columns, then id, first match wins)
accepts the Autor node via its id column, but the code compares only the
first present column (coalesce), finds csvId 5, rejects the node, and the
ingestion of the relationship row creates no edge and counts it unresolved. -/
theorem endpoint_resolution_cx :
    endpointMatchSpecC3 "Autor" colsAutor 7 c3Autor = true ∧
    endpointMatch "Autor" colsAutor 7 c3Autor = false ∧
    (runIngest c3Graph c3File).toOption.map
      (fun s => (s.graph.edges.length, unresolvedCount s)) = some (0, 1) := by
  exact ⟨by decide, by decide, by decide⟩

/-- Claim C3 (corrected): each endpoint is matched by comparing, as strings,
the first PRESENT identifier among csvId, the alternate legacy columns, and
the bare id columns (Cypher coalesce): when the first column is present its
string comparison alone decides the match, a present-but-different earlier
column excludes the node even if a later column holds the endpoint value,
and later columns are consulted only when the earlier ones are absent. -/
theorem endpoint_match_coalesce :
    (∀ (lbl c : String) (rest : List String) (idv : Int) (n : Node),
       n.props c ≠ Val.vnull →
       endpointMatch lbl (c :: rest) idv n =
         (n.label = lbl && valToStr (n.props c) = some (toString idv))) ∧
    (∀ (lbl c : String) (rest : List String) (idv : Int) (n : Node),
       n.props c = Val.vnull →
       endpointMatch lbl (c :: rest) idv n = endpointMatch lbl rest idv n) ∧
    (∀ (lbl c : String) (rest : List String) (idv : Int) (n : Node),
       n.props c ≠ Val.vnull → valToStr (n.props c) ≠ some (toString idv) →
       endpointMatch lbl (c :: rest) idv n = false) := by
  refine ⟨?_, ?_, ?_⟩
  · intro lbl c rest idv n h
    simp [endpointMatch, coalesceP, h]
  · intro lbl c rest idv n h
    simp [endpointMatch, coalesceP, h]
  · intro lbl c rest idv n h hne
    simp [endpointMatch, coalesceP, h, hne]

/-- Witness for C3 amended at the concrete Autor node: csvId is present and
different, so the node is excluded although its id column holds the value. -/
theorem endpoint_match_coalesce_witness :
    c3Autor.props "csvId" ≠ Val.vnull ∧
    valToStr (c3Autor.props "csvId") ≠ some (toString (7 : Int)) ∧
    endpointMatch "Autor" ("csvId" :: ["idAutor", "IdAutor", "id", "Id"]) 7 c3Autor = false := by
  refine ⟨by decide, by decide, ?_⟩
  exact endpoint_match_coalesce.2.2 "Autor" "csvId" ["idAutor", "IdAutor", "id", "Id"] 7 c3Autor
    (by decide) (by decide)

/- ---------------------------------------------------------------------
   Claim C7: schema classification priority.
--------------------------------------------------------------------- -/

/-- Claim C7 (confirmed): classification tests the node signatures first in
the fixed order Persona, Autor, Libro, Club by subset containment on the
normalized headers (extra columns ignored), then the relationship signatures
in the priority order Autor to Libro, Persona to Libro, Club to Libro,
Persona to Club, first match winning; a header set with an author-id alias
and a book-id alias classifies as Autor to Libro even when the generic
person-id alias id is also present; a file matching no signature yields only
an unrecognized-format warning and the batch continues with the next
operation. -/
theorem band_false_of_right_true {a b : Bool} (h : (a && b) = false) (hb : b = true) :
    a = false := by
  cases a
  · rfl
  · rw [hb] at h; exact absurd h (by simp)

theorem classify_priority :
    (∀ hs, subsetB sigPersona hs = true → classify hs = FileKind.persona) ∧
    (∀ hs, subsetB sigPersona hs = false → subsetB sigAutor hs = true →
       classify hs = FileKind.autor) ∧
    (∀ hs, subsetB sigPersona hs = false → subsetB sigAutor hs = false →
       subsetB sigLibro hs = true → classify hs = FileKind.libro) ∧
    (∀ hs, subsetB sigPersona hs = false → subsetB sigAutor hs = false →
       subsetB sigLibro hs = false → subsetB sigClub hs = true →
       classify hs = FileKind.club) ∧
    (∀ hs, subsetB sigPersona hs = false → subsetB sigAutor hs = false →
       subsetB sigLibro hs = false → subsetB sigClub hs = false →
       (findAliasN hs aliasesAutor).isSome = true →
       (findAliasN hs aliasesLibro).isSome = true →
       classify hs = FileKind.relAutorLibro) ∧
    (∀ hs, subsetB sigPersona hs = false → subsetB sigAutor hs = false →
       subsetB sigLibro hs = false → subsetB sigClub hs = false →
       ((findAliasN hs aliasesAutor).isSome && (findAliasN hs aliasesLibro).isSome) = false →
       (findAliasN hs aliasesPersonaLibro).isSome = true →
       (findAliasN hs aliasesLibro).isSome = true →
       classify hs = FileKind.relPersonaLibro) ∧
    (∀ hs, subsetB sigPersona hs = false → subsetB sigAutor hs = false →
       subsetB sigLibro hs = false → subsetB sigClub hs = false →
       ((findAliasN hs aliasesAutor).isSome && (findAliasN hs aliasesLibro).isSome) = false →
       ((findAliasN hs aliasesPersonaLibro).isSome && (findAliasN hs aliasesLibro).isSome) = false →
       (findAliasN hs aliasesClub).isSome = true →
       (findAliasN hs aliasesLibro).isSome = true →
       classify hs = FileKind.relClubLibro) ∧
    (∀ hs, subsetB sigPersona hs = false → subsetB sigAutor hs = false →
       subsetB sigLibro hs = false → subsetB sigClub hs = false →
       ((findAliasN hs aliasesAutor).isSome && (findAliasN hs aliasesLibro).isSome) = false →
       ((findAliasN hs aliasesPersonaLibro).isSome && (findAliasN hs aliasesLibro).isSome) = false →
       ((findAliasN hs aliasesClub).isSome && (findAliasN hs aliasesLibro).isSome) = false →
       (findAliasN hs aliasesPersonaClub).isSome = true →
       (findAliasN hs aliasesClub).isSome = true →
       classify hs = FileKind.relPersonaClub) ∧
    classify ["idautor", "idlibro", "id"] = FileKind.relAutorLibro ∧
    (∀ content : String, content ≠ "" →
       (fileFieldnames content).isEmpty = false →
       classify (fileHeaders content) = FileKind.unrecognized →
       opsOfFile content = [Op.warn Warn.wUnrecognized]) ∧
    (∀ (st : IngestState) (w : Warn) (rest : List Op),
       execOps st (Op.warn w :: rest) =
         execOps { st with warns := st.warns ++ [w] } rest) := by
  refine ⟨?_, ?_, ?_, ?_, ?_, ?_, ?_, ?_, by decide, ?_, ?_⟩
  · intro hs h1; simp [classify, h1]
  · intro hs h1 h2; simp [classify, h1, h2]
  · intro hs h1 h2 h3; simp [classify, h1, h2, h3]
  · intro hs h1 h2 h3 h4; simp [classify, h1, h2, h3, h4]
  · intro hs h1 h2 h3 h4 h5 h6; simp [classify, h1, h2, h3, h4, h5, h6]
  · intro hs h1 h2 h3 h4 h5 h6 h7
    have h5' : (findAliasN hs aliasesAutor).isSome = false := band_false_of_right_true h5 h7
    simp [classify, h1, h2, h3, h4, h5', h6, h7]
  · intro hs h1 h2 h3 h4 h5 h6 h7 h8
    have h5' : (findAliasN hs aliasesAutor).isSome = false := band_false_of_right_true h5 h8
    have h6' : (findAliasN hs aliasesPersonaLibro).isSome = false :=
      band_false_of_right_true h6 h8
    simp [classify, h1, h2, h3, h4, h5', h6', h7, h8]
  · intro hs h1 h2 h3 h4 h5 h6 h7 h8 h9
    have h7' : (findAliasN hs aliasesLibro).isSome = false := by
      cases hL : (findAliasN hs aliasesLibro).isSome
      · rfl
      · rw [band_false_of_right_true h7 hL] at h9; exact absurd h9 (by simp)
    have h5' : ((findAliasN hs aliasesAutor).isSome &&
        (findAliasN hs aliasesLibro).isSome) = false := by simp [h7']
    have h6' : ((findAliasN hs aliasesPersonaLibro).isSome &&
        (findAliasN hs aliasesLibro).isSome) = false := by simp [h7']
    simp [classify, h1, h2, h3, h4, h5', h6', h7', h8, h9]
  · intro content hne hfn hcls
    unfold opsOfFile
    rw [if_neg hne, if_neg (by simp [hfn])]
    simp [hcls]
  · intro st w rest; rfl

/-- Witness for C7: a Persona file with an extra book-id column still
classifies as Persona (node signatures first, extras ignored); the
author-id/book-id/id header set classifies as Autor to Libro; a file with
unknown headers reduces to a single warning and execution proceeds. -/
theorem classify_priority_witness :
    classify ["id", "nombre", "tipolector", "idlibro"] = FileKind.persona ∧
    classify ["idautor", "idlibro", "id"] = FileKind.relAutorLibro ∧
    opsOfFile "foo;bar\n1;2" = [Op.warn Warn.wUnrecognized] ∧
    execOps (initState Graph.empty) (Op.warn Warn.wUnrecognized :: []) =
      execOps { initState Graph.empty with warns := [Warn.wUnrecognized] } [] := by
  refine ⟨?_, classify_priority.2.2.2.2.2.2.2.2.1, ?_, ?_⟩
  · exact classify_priority.1 ["id", "nombre", "tipolector", "idlibro"] (by decide)
  · exact (classify_priority.2.2.2.2.2.2.2.2.2.1) "foo;bar\n1;2" (by decide) (by decide)
      (by decide)
  · have h := (classify_priority.2.2.2.2.2.2.2.2.2.2) (initState Graph.empty)
      Warn.wUnrecognized []
    simpa [initState] using h

/- ---------------------------------------------------------------------
   Claim C10: counters count processed rows, not created nodes.
--------------------------------------------------------------------- -/

/-- How much one operation adds to the counter of label l: one per node
merge or create of that label, regardless of the graph state. -/
def opCountsFor (l : String) (op : Op) : Nat :=
  match op with
  | Op.mergeNode l2 _ _ => if l2 = l then 1 else 0
  | Op.createNode l2 _ => if l2 = l then 1 else 0
  | _ => 0

def countLabelOps (l : String) (L : List Op) : Nat :=
  (L.map (opCountsFor l)).sum

theorem countLabelOps_append (l : String) (a b : List Op) :
    countLabelOps l (a ++ b) = countLabelOps l a + countLabelOps l b := by
  simp [countLabelOps]

theorem countLabelOps_flatMap_one {α : Type} (l : String) (f : α → List Op)
    (rows : List α) (h : ∀ r ∈ rows, countLabelOps l (f r) = 1) :
    countLabelOps l (rows.flatMap f) = rows.length := by
  induction rows with
  | nil => rfl
  | cons r t ih =>
      rw [List.flatMap_cons, countLabelOps_append, h r (List.mem_cons_self r t),
        ih (fun x hx => h x (List.mem_cons_of_mem r hx))]
      simp [Nat.add_comm]

/-- Claim C10 (confirmed): every successfully executed node upsert adds one
to its label counter whether it merged or created, so the counters are a
function of the operation list alone: after a successful run the counter of
each node label equals its starting value plus the number of its node
operations; for a node-classified file that number is the number of data
rows; and two successful runs of the same file set from different initial
graphs report identical per-type counts. -/
theorem counters_count_rows :
    (∀ (L : List Op) (st st2 : IngestState) (l : String), l ≠ "Relaciones" →
       execOps st L = Except.ok st2 →
       st2.counts l = st.counts l + countLabelOps l L) ∧
    (∀ content : String,
       classify (fileHeaders content) = FileKind.persona → content ≠ "" →
       (fileFieldnames content).isEmpty = false →
       countLabelOps "Persona" (opsOfFile content) = (fileRows content).length) ∧
    (∀ content : String,
       classify (fileHeaders content) = FileKind.autor → content ≠ "" →
       (fileFieldnames content).isEmpty = false →
       countLabelOps "Autor" (opsOfFile content) = (fileRows content).length) ∧
    (∀ content : String,
       classify (fileHeaders content) = FileKind.libro → content ≠ "" →
       (fileFieldnames content).isEmpty = false →
       countLabelOps "Libro" (opsOfFile content) = (fileRows content).length) ∧
    (∀ content : String,
       classify (fileHeaders content) = FileKind.club → content ≠ "" →
       (fileFieldnames content).isEmpty = false →
       countLabelOps "Club" (opsOfFile content) = (fileRows content).length) ∧
    (∀ (files : List (String × String)) (g1 g2 : Graph) (s1 s2 : IngestState),
       runIngest g1 files = Except.ok s1 → runIngest g2 files = Except.ok s2 →
       ∀ l, l ≠ "Relaciones" → s1.counts l = s2.counts l) := by
  have main : ∀ (L : List Op) (st st2 : IngestState) (l : String), l ≠ "Relaciones" →
      execOps st L = Except.ok st2 →
      st2.counts l = st.counts l + countLabelOps l L := by
    intro L
    induction L with
    | nil =>
        intro st st2 l hl hex
        have : st = st2 := Except.ok.inj hex
        simp [← this, countLabelOps]
    | cons op rest ih =>
        intro st st2 l hl hex
        unfold execOps at hex
        cases happ : applyOp st op with
        | error e => rw [happ] at hex; exact absurd hex (by simp)
        | ok st1 =>
            rw [happ] at hex
            have hrest := ih st1 st2 l hl hex
            have hstep : st1.counts l = st.counts l + opCountsFor l op := by
              cases op with
              | mergeNode l2 k bag =>
                  simp only [applyOp] at happ
                  cases hg : mergeNodeG st.graph l2 k bag with
                  | error e => rw [hg] at happ; exact absurd happ (by simp [Except.map])
                  | ok g =>
                      rw [hg] at happ
                      simp only [Except.map] at happ
                      have h1 := Except.ok.inj happ
                      rw [← h1]
                      show bump st.counts l2 l = st.counts l + opCountsFor l (Op.mergeNode l2 k bag)
                      by_cases he : l = l2
                      · simp [bump, opCountsFor, he]
                      · have he2 : ¬ l2 = l := fun h => he h.symm
                        simp [bump, opCountsFor, he, he2]
              | createNode l2 bag =>
                  simp only [applyOp] at happ
                  have h1 := Except.ok.inj happ
                  rw [← h1]
                  show bump st.counts l2 l = st.counts l + opCountsFor l (Op.createNode l2 bag)
                  by_cases he : l = l2
                  · simp [bump, opCountsFor, he]
                  · have he2 : ¬ l2 = l := fun h => he h.symm
                    simp [bump, opCountsFor, he, he2]
              | relMerge rt fl fcols a tl tcols b =>
                  simp only [applyOp] at happ
                  by_cases hres : (relMergeG st.graph rt fl fcols a tl tcols b).2 = true
                  · rw [if_pos hres] at happ
                    have h1 := Except.ok.inj happ
                    rw [← h1]
                    simp [bump, opCountsFor, hl]
                  · rw [if_neg hres] at happ
                    have h1 := Except.ok.inj happ
                    rw [← h1]
                    simp [opCountsFor]
              | warn w =>
                  simp only [applyOp] at happ
                  have h1 := Except.ok.inj happ
                  rw [← h1]
                  simp [opCountsFor]
            rw [hrest, hstep]
            simp only [countLabelOps, List.map_cons, List.sum_cons]
            omega
  refine ⟨main, ?_, ?_, ?_, ?_, ?_⟩
  · intro content hcls hne hfn
    unfold opsOfFile
    rw [if_neg hne, if_neg (by simp [hfn])]
    simp only [hcls]
    apply countLabelOps_flatMap_one
    intro r hr
    cases hc : safe_int (bagGet r (hmGet (headerMapOf (fileFieldnames content)) "id")) with
    | none => simp [personaRowOps, hc, countLabelOps, opCountsFor]
    | some n => simp [personaRowOps, hc, countLabelOps, opCountsFor]
  · intro content hcls hne hfn
    unfold opsOfFile
    rw [if_neg hne, if_neg (by simp [hfn])]
    simp only [hcls]
    apply countLabelOps_flatMap_one
    intro r hr
    cases hc : safe_int (bagGet r (hmGet (headerMapOf (fileFieldnames content)) "idautor")) with
    | none => simp [autorRowOps, hc, countLabelOps, opCountsFor]
    | some n => simp [autorRowOps, hc, countLabelOps, opCountsFor]
  · intro content hcls hne hfn
    unfold opsOfFile
    rw [if_neg hne, if_neg (by simp [hfn])]
    simp only [hcls]
    apply countLabelOps_flatMap_one
    intro r hr
    cases hc : safe_int (bagGet r (hmGet (headerMapOf (fileFieldnames content)) "idlibro")) with
    | none =>
        cases ha : safe_int (bagGet r (hmGet (headerMapOf (fileFieldnames content)) "anno")) with
        | none => simp [libroRowOps, hc, ha, countLabelOps, opCountsFor]
        | some m => simp [libroRowOps, hc, ha, countLabelOps, opCountsFor]
    | some n =>
        cases ha : safe_int (bagGet r (hmGet (headerMapOf (fileFieldnames content)) "anno")) with
        | none => simp [libroRowOps, hc, ha, countLabelOps, opCountsFor]
        | some m => simp [libroRowOps, hc, ha, countLabelOps, opCountsFor]
  · intro content hcls hne hfn
    unfold opsOfFile
    rw [if_neg hne, if_neg (by simp [hfn])]
    simp only [hcls]
    apply countLabelOps_flatMap_one
    intro r hr
    cases hc : safe_int (bagGet r (hmGet (headerMapOf (fileFieldnames content)) "idclub")) with
    | none => simp [clubRowOps, hc, countLabelOps, opCountsFor]
    | some n => simp [clubRowOps, hc, countLabelOps, opCountsFor]
  · intro files g1 g2 s1 s2 h1 h2 l hl
    have e1 := main (opsOf files) (initState g1) s1 l hl h1
    have e2 := main (opsOf files) (initState g2) s2 l hl h2
    rw [e1, e2]
    simp [initState]

def c10File : List (String × String) :=
  [("p.csv", "id;Nombre;TipoLector\n1;Ana;F\n2;Bob;G")]

def c10s1 : IngestState :=
  (runIngest Graph.empty c10File).toOption.getD (initState Graph.empty)

def c10s2 : IngestState :=
  (runIngest c10s1.graph c10File).toOption.getD (initState Graph.empty)

/-- Witness for C10: a two-row Persona file counted twice: the first run and
the re-run over the resulting graph both report Persona=2 even though the
second run creates no node. -/
theorem counters_count_rows_witness :
    runIngest Graph.empty c10File = Except.ok c10s1 ∧
    runIngest c10s1.graph c10File = Except.ok c10s2 ∧
    c10s1.counts "Persona" = c10s2.counts "Persona" ∧
    c10s1.counts "Persona" = 2 ∧
    c10s2.graph.nodes.length = c10s1.graph.nodes.length := by
  refine ⟨by rfl, by rfl, ?_, by decide, by decide⟩
  exact (counters_count_rows.2.2.2.2.2) c10File Graph.empty c10s1.graph c10s1 c10s2
    (by rfl) (by rfl) "Persona" (by decide)

/- ---------------------------------------------------------------------
   Claim C4: failure isolation across files of a batch.
--------------------------------------------------------------------- -/

theorem execOps_cons (st : IngestState) (op : Op) (rest : List Op) :
    execOps st (op :: rest) =
      match applyOp st op with
      | Except.ok s => execOps s rest
      | Except.error e => Except.error e := rfl

theorem execOps_append (st : IngestState) (a b : List Op) :
    execOps st (a ++ b) =
      match execOps st a with
      | Except.ok s => execOps s b
      | Except.error e => Except.error e := by
  induction a generalizing st with
  | nil => simp [execOps]
  | cons op rest ih =>
      rw [List.cons_append, execOps_cons, execOps_cons]
      cases happ : applyOp st op with
      | ok st' => exact ih st'
      | error e => rfl

theorem opsOf_append (fs1 fs2 : List (String × String)) :
    opsOf (fs1 ++ fs2) = opsOf fs1 ++ opsOf fs2 := by
  simp [opsOf]

def c4Bad : String × String := ("bad.csv", "id;Nombre;TipoLector\n7")

def c4Ok : String × String := ("ok.csv", "id;Nombre;TipoLector\n1;Ana;F")

/-- Claim C4 as stated is false: the batch consisting of a Persona file whose
only row lacks the Nombre field (so the node MERGE runs on a null key and the
graph store raises) followed by a well-formed Persona file returns an error
for the WHOLE batch: no summary is produced and the second file is never
executed, while that second file alone ingests fine.  There is no per-file
isolation of merge failures in the source (no try/except around
session.execute_write). -/
theorem file_failure_not_isolated_cx :
    cargar_datos_manualmente Graph.empty [c4Bad, c4Ok] =
      Except.error IngestErr.nullMergeKey ∧
    cargar_datos_manualmente Graph.empty [c4Ok] =
      Except.ok "Carga Manual: OK. Personas=1, Autores=0, Libros=0, Clubes=0, Relaciones=0" := by
  exact ⟨by rfl, by rfl⟩

/-- Claim C4 (corrected): a failure raised while merging a node (for example
a null merge key or a uniqueness-constraint violation) is fatal for the
ENTIRE batch: the error propagates out of the ingestion entry point and the
remaining files are not executed.  Only the recognized non-exceptional skip
conditions are isolated per file: an empty file contributes no operation and
a file without headers only a warning, and a warning operation never stops
execution. -/
theorem merge_failure_aborts_batch :
    (∀ (g : Graph) (fs1 fs2 : List (String × String)) (e : IngestErr),
       runIngest g fs1 = Except.error e →
       runIngest g (fs1 ++ fs2) = Except.error e) ∧
    (∀ (g : Graph) (fs1 fs2 : List (String × String)) (e : IngestErr),
       runIngest g fs1 = Except.error e →
       cargar_datos_manualmente g (fs1 ++ fs2) = Except.error e) ∧
    opsOfFile "" = [] ∧
    (∀ content : String, content ≠ "" → (fileFieldnames content).isEmpty = true →
       opsOfFile content = [Op.warn Warn.wNoHeaders]) ∧
    (∀ (st : IngestState) (w : Warn) (rest : List Op),
       execOps st (Op.warn w :: rest) =
         execOps { st with warns := st.warns ++ [w] } rest) := by
  have hprop : ∀ (g : Graph) (fs1 fs2 : List (String × String)) (e : IngestErr),
      runIngest g fs1 = Except.error e →
      runIngest g (fs1 ++ fs2) = Except.error e := by
    intro g fs1 fs2 e h
    unfold runIngest at h ⊢
    rw [opsOf_append, execOps_append, h]
  refine ⟨hprop, ?_, rfl, ?_, ?_⟩
  · intro g fs1 fs2 e h
    unfold cargar_datos_manualmente
    rw [hprop g fs1 fs2 e h]
    rfl
  · intro content hne hfn
    unfold opsOfFile
    rw [if_neg hne, if_pos hfn]
  · intro st w rest; rfl

/-- Witness for C4 amended: the failing Persona file alone already errors,
and appending the well-formed file leaves the batch erroring all the same. -/
theorem merge_failure_aborts_batch_witness :
    runIngest Graph.empty [c4Bad] = Except.error IngestErr.nullMergeKey ∧
    runIngest Graph.empty ([c4Bad] ++ [c4Ok]) = Except.error IngestErr.nullMergeKey ∧
    opsOfFile "\n1;Ana;F" = [Op.warn Warn.wNoHeaders] := by
  refine ⟨by rfl, ?_, ?_⟩
  · exact merge_failure_aborts_batch.1 Graph.empty [c4Bad] [c4Ok]
      IngestErr.nullMergeKey (by rfl)
  · exact (merge_failure_aborts_batch.2.2.2.1) "\n1;Ana;F" (by decide) (by decide)

/- ---------------------------------------------------------------------
   Claim C1: idempotence of re-ingestion.  Graph-only execution layer.
--------------------------------------------------------------------- -/

def applyOpG (g : Graph) : Op → Except IngestErr Graph
  | Op.mergeNode l k bag => mergeNodeG g l k bag
  | Op.createNode l bag => Except.ok (createNodeG g l bag)
  | Op.relMerge rt fl fcols a tl tcols b =>
      Except.ok (relMergeG g rt fl fcols a tl tcols b).1
  | Op.warn _ => Except.ok g

def execG : Graph → List Op → Except IngestErr Graph
  | g, [] => Except.ok g
  | g, op :: rest =>
      match applyOpG g op with
      | Except.ok g2 => execG g2 rest
      | Except.error e => Except.error e

theorem applyOp_graph (st : IngestState) (op : Op) :
    (applyOp st op).map (fun s => s.graph) = applyOpG st.graph op := by
  cases op with
  | mergeNode l k bag =>
      show (Except.map _ (mergeNodeG st.graph l k bag)).map _ = mergeNodeG st.graph l k bag
      cases mergeNodeG st.graph l k bag <;> rfl
  | createNode l bag => rfl
  | relMerge rt fl fcols a tl tcols b =>
      simp only [applyOp, applyOpG]
      by_cases h : (relMergeG st.graph rt fl fcols a tl tcols b).2 = true
      · rw [if_pos h]; rfl
      · rw [if_neg h]; rfl
  | warn w => rfl

theorem execOps_graph (L : List Op) (st : IngestState) :
    (execOps st L).map (fun s => s.graph) = execG st.graph L := by
  induction L generalizing st with
  | nil => rfl
  | cons op rest ih =>
      rw [execOps_cons]
      show _ = (match applyOpG st.graph op with
        | Except.ok g2 => execG g2 rest
        | Except.error e => Except.error e)
      rw [← applyOp_graph st op]
      cases happ : applyOp st op with
      | ok st2 => exact ih st2
      | error e => rfl

theorem execG_cons (g : Graph) (op : Op) (rest : List Op) :
    execG g (op :: rest) =
      match applyOpG g op with
      | Except.ok g2 => execG g2 rest
      | Except.error e => Except.error e := rfl

theorem execG_append (g : Graph) (a b : List Op) :
    execG g (a ++ b) =
      match execG g a with
      | Except.ok g2 => execG g2 b
      | Except.error e => Except.error e := by
  induction a generalizing g with
  | nil => simp [execG]
  | cons op rest ih =>
      rw [List.cons_append, execG_cons, execG_cons]
      cases happ : applyOpG g op with
      | ok g2 => exact ih g2
      | error e => rfl

/- Well-formedness of the generated operations. -/

/-- The merge key used by the code for each label. -/
def canonKey (l : String) : String :=
  if l = "Persona" then "nombreCompleto"
  else if l = "Autor" then "nombreCompleto"
  else if l = "Libro" then "titulo"
  else if l = "Club" then "csvId"
  else ""

/-- Every node merge the code issues uses its label's canonical key. -/
def opWF : Op → Prop
  | Op.mergeNode l k _ => k = canonKey l
  | _ => True

def isNodePhase : Op → Bool
  | Op.mergeNode _ _ _ => true
  | Op.warn _ => true
  | _ => false

def isRelPhase : Op → Bool
  | Op.relMerge _ _ _ _ _ _ _ => true
  | Op.warn _ => true
  | _ => false

theorem personaRowOps_wf (hm : List (String × String)) (r : PropBag) :
    ∀ op ∈ personaRowOps hm r, opWF op := by
  intro op hop
  cases hc : safe_int (bagGet r (hmGet hm "id")) with
  | none =>
      simp [personaRowOps, hc] at hop
      rcases hop with h | h <;> rw [h] <;> trivial
  | some n =>
      simp [personaRowOps, hc] at hop
      rw [hop]; trivial

theorem autorRowOps_wf (hm : List (String × String)) (r : PropBag) :
    ∀ op ∈ autorRowOps hm r, opWF op := by
  intro op hop
  cases hc : safe_int (bagGet r (hmGet hm "idautor")) with
  | none =>
      simp [autorRowOps, hc] at hop
      rcases hop with h | h <;> rw [h] <;> trivial
  | some n =>
      simp [autorRowOps, hc] at hop
      rw [hop]; trivial

theorem libroRowOps_wf (hm : List (String × String)) (r : PropBag) :
    ∀ op ∈ libroRowOps hm r, opWF op := by
  intro op hop
  cases hc : safe_int (bagGet r (hmGet hm "idlibro")) with
  | none =>
      cases ha : safe_int (bagGet r (hmGet hm "anno")) with
      | none =>
          simp [libroRowOps, hc, ha] at hop
          rcases hop with h | h | h <;> rw [h] <;> trivial
      | some m =>
          simp [libroRowOps, hc, ha] at hop
          rcases hop with h | h <;> rw [h] <;> trivial
  | some n =>
      cases ha : safe_int (bagGet r (hmGet hm "anno")) with
      | none =>
          simp [libroRowOps, hc, ha] at hop
          rcases hop with h | h <;> rw [h] <;> trivial
      | some m =>
          simp [libroRowOps, hc, ha] at hop
          rw [hop]; trivial

theorem clubRowOps_wf (hm : List (String × String)) (r : PropBag) :
    ∀ op ∈ clubRowOps hm r, opWF op := by
  intro op hop
  cases hc : safe_int (bagGet r (hmGet hm "idclub")) with
  | none =>
      simp [clubRowOps, hc] at hop
      rcases hop with h | h <;> rw [h] <;> trivial
  | some n =>
      simp [clubRowOps, hc] at hop
      rw [hop]; trivial

theorem relRowOps_wf (rt fl : String) (fcols : List String) (tl : String)
    (tcols : List String) (fc tc : String) (r : PropBag) :
    ∀ op ∈ relRowOps rt fl fcols tl tcols fc tc r, opWF op := by
  intro op hop
  unfold relRowOps at hop
  cases hf : safe_int (bagGet r fc) with
  | none =>
      rw [hf] at hop
      simp at hop
      rw [hop]; trivial
  | some a =>
      rw [hf] at hop
      cases ht : safe_int (bagGet r tc) with
      | none =>
          rw [ht] at hop; simp at hop; rw [hop]; trivial
      | some b =>
          rw [ht] at hop; simp at hop; rw [hop]; trivial

theorem opsOfFile_wf (content : String) : ∀ op ∈ opsOfFile content, opWF op := by
  intro op hop
  unfold opsOfFile at hop
  by_cases h0 : content = ""
  · rw [if_pos h0] at hop; exact absurd hop (List.not_mem_nil op)
  · rw [if_neg h0] at hop
    by_cases h1 : (fileFieldnames content).isEmpty
    · rw [if_pos h1] at hop
      rw [List.mem_singleton.mp hop]; trivial
    · rw [if_neg h1] at hop
      simp only at hop
      cases hcl : classify (fileHeaders content) <;> rw [hcl] at hop
      · obtain ⟨r, hrr, hr⟩ := List.mem_flatMap.mp hop
        exact personaRowOps_wf _ r op hr
      · obtain ⟨r, hrr, hr⟩ := List.mem_flatMap.mp hop
        exact autorRowOps_wf _ r op hr
      · obtain ⟨r, hrr, hr⟩ := List.mem_flatMap.mp hop
        exact libroRowOps_wf _ r op hr
      · obtain ⟨r, hrr, hr⟩ := List.mem_flatMap.mp hop
        exact clubRowOps_wf _ r op hr
      · obtain ⟨r, hrr, hr⟩ := List.mem_flatMap.mp hop
        exact relRowOps_wf _ _ _ _ _ _ _ r op hr
      · obtain ⟨r, hrr, hr⟩ := List.mem_flatMap.mp hop
        exact relRowOps_wf _ _ _ _ _ _ _ r op hr
      · obtain ⟨r, hrr, hr⟩ := List.mem_flatMap.mp hop
        exact relRowOps_wf _ _ _ _ _ _ _ r op hr
      · obtain ⟨r, hrr, hr⟩ := List.mem_flatMap.mp hop
        exact relRowOps_wf _ _ _ _ _ _ _ r op hr
      · rw [List.mem_singleton.mp hop]; trivial

theorem opsOf_wf (files : List (String × String)) : ∀ op ∈ opsOf files, opWF op := by
  intro op hop
  obtain ⟨f, _, hf⟩ := List.mem_flatMap.mp hop
  exact opsOfFile_wf f.2 op hf

/- Key triples, contributions, and the per-node characterization data. -/

structure NodeKey where
  lbl : String
  key : String
  val : Val
deriving DecidableEq

def nodeTriple (n : Node) : NodeKey :=
  ⟨n.label, canonKey n.label, n.props (canonKey n.label)⟩

def nthNode (g : Graph) (i : Nat) : Node := g.nodes.getD i dummyNode

/-- The bag an operation applies to nodes whose key triple is t. -/
def opContrib (t : NodeKey) : Op → PropBag
  | Op.mergeNode l k bag =>
      if l = t.lbl ∧ k = t.key ∧ bagGet bag k = t.val then bag else []
  | _ => []

def bagsFor (L : List Op) (t : NodeKey) : PropBag :=
  L.flatMap (opContrib t)

theorem bagsFor_nil (t : NodeKey) : bagsFor [] t = [] := rfl

theorem bagsFor_cons (op : Op) (L : List Op) (t : NodeKey) :
    bagsFor (op :: L) t = opContrib t op ++ bagsFor L t := by
  simp [bagsFor]

theorem bagsFor_append (a b : List Op) (t : NodeKey) :
    bagsFor (a ++ b) t = bagsFor a t ++ bagsFor b t := by
  simp [bagsFor]

def hasKey (g : Graph) (t : NodeKey) : Prop :=
  ∃ n ∈ g.nodes, n.label = t.lbl ∧ n.props t.key = t.val

theorem hasKey_iff_any (g : Graph) (t : NodeKey) :
    hasKey g t ↔ g.nodes.any (nodeMatch t.lbl t.key t.val) = true := by
  rw [List.any_eq_true]
  constructor
  · rintro ⟨n, hn, h1, h2⟩
    exact ⟨n, hn, by simp [nodeMatch, h1, h2]⟩
  · rintro ⟨n, hn, h⟩
    rw [nodeMatch, Bool.and_eq_true] at h
    exact ⟨n, hn, by simpa using h.1, by simpa using h.2⟩

theorem hasKey_congr_nodes {g g2 : Graph} (h : g.nodes = g2.nodes) (t : NodeKey) :
    hasKey g t ↔ hasKey g2 t := by
  unfold hasKey
  rw [h]

theorem lastVal_of_bagGet {bag : PropBag} {k : String} {v : Val} (h : bagGet bag k = v) :
    lastVal bag k = none ∨ lastVal bag k = some v := by
  cases hl : lastVal bag k with
  | none => exact Or.inl rfl
  | some w =>
      right
      unfold bagGet at h
      rw [hl] at h
      simp at h
      rw [h]

/-- All bags contributed for a key triple agree on the key: the last write is
either absent or exactly the triple's value. -/
theorem lastVal_bagsFor (L : List Op) (t : NodeKey) :
    lastVal (bagsFor L t) t.key = none ∨ lastVal (bagsFor L t) t.key = some t.val := by
  induction L with
  | nil => exact Or.inl rfl
  | cons op rest ih =>
      rw [bagsFor_cons, lastVal_append]
      cases ih with
      | inl h =>
          rw [h]
          show lastVal (opContrib t op) t.key = none ∨
            lastVal (opContrib t op) t.key = some t.val
          cases op with
          | mergeNode l k bag =>
              simp only [opContrib]
              by_cases hc : l = t.lbl ∧ k = t.key ∧ bagGet bag k = t.val
              · rw [if_pos hc]
                exact lastVal_of_bagGet (by rw [← hc.2.1]; exact hc.2.2)
              · rw [if_neg hc]; exact Or.inl rfl
          | createNode l bag => exact Or.inl rfl
          | relMerge rt fl fcols a tl tcols b => exact Or.inl rfl
          | warn w => exact Or.inl rfl
      | inr h => rw [h]; exact Or.inr rfl

theorem plusEq_bagsFor_key {p : Props} {t : NodeKey} (L : List Op)
    (hp : p t.key = t.val) : plusEq p (bagsFor L t) t.key = t.val := by
  rw [plusEq_get]
  cases lastVal_bagsFor L t with
  | inl h => rw [h]; exact hp
  | inr h => rw [h]

/- The counterexample to claim C1 as stated. -/

def c1Files : List (String × String) :=
  [("rel.csv", "id;idLibro\n1;2"),
   ("per.csv", "id;Nombre;TipoLector\n1;Ana;F"),
   ("lib.csv", "idLibro;Titulo;Genero;Anno\n2;T;G;1999"),
   ("clu.csv", "idClub;Nombre;Ubicacion;Tematica\nX;C;U;T")]

def runOnceCounts (files : List (String × String)) : Option (Nat × Nat) :=
  match runIngest Graph.empty files with
  | Except.ok s => some (s.graph.nodes.length, s.graph.edges.length)
  | Except.error _ => none

def runTwiceCounts (files : List (String × String)) : Option (Nat × Nat) :=
  match runIngest Graph.empty files with
  | Except.ok s1 =>
      (match runIngest s1.graph files with
       | Except.ok s2 => some (s2.graph.nodes.length, s2.graph.edges.length)
       | Except.error _ => none)
  | Except.error _ => none

/-- Claim C1 as stated is false: on the file set whose relationship file
precedes its node files and whose Club row has a non-numeric id, every row is
processed both times, yet the first run ends with 3 nodes and 0 edges while
the second run ends with 4 nodes (the Club CREATE duplicates) and 1 edge
(the relationship only resolves once its endpoints exist). -/
theorem ingest_twice_not_idempotent_cx :
    runOnceCounts c1Files = some (3, 0) ∧ runTwiceCounts c1Files = some (4, 1) := by
  exact ⟨by decide, by decide⟩

/- Per-operation shape of a node-phase step. -/

def opKeyOf : Op → Option NodeKey
  | Op.mergeNode l k bag => some ⟨l, k, bagGet bag k⟩
  | _ => none

theorem getD_append_lt (l m : List Node) (i : Nat) (hi : i < l.length) :
    (l ++ m).getD i dummyNode = l.getD i dummyNode := by
  rw [List.getD_eq_getElem _ _ (by simp; omega), List.getD_eq_getElem _ _ hi]
  exact List.getElem_append_left hi

theorem getD_snoc_self (l : List Node) (x : Node) :
    (l ++ [x]).getD l.length dummyNode = x := by
  rw [List.getD_eq_getElem _ _ (by simp)]
  simp

theorem getD_mem_of_lt (l : List Node) (i : Nat) (hi : i < l.length) :
    l.getD i dummyNode ∈ l := by
  rw [List.getD_eq_getElem _ _ hi]
  exact List.getElem_mem hi

theorem nodeMatch_eq_true_iff {l k : String} {v : Val} {n : Node} :
    nodeMatch l k v n = true ↔ (n.label = l ∧ n.props k = v) := by
  rw [nodeMatch, Bool.and_eq_true]
  constructor
  · intro ⟨h1, h2⟩; exact ⟨by simpa using h1, by simpa using h2⟩
  · intro ⟨h1, h2⟩; exact ⟨by simpa using h1, by simpa using h2⟩

theorem opContrib_mergeNode_of_match {l k : String} {bag : PropBag} {n : Node}
    (hk : k = canonKey l) (hm : nodeMatch l k (bagGet bag k) n = true) :
    opContrib (nodeTriple n) (Op.mergeNode l k bag) = bag := by
  obtain ⟨h1, h2⟩ := nodeMatch_eq_true_iff.mp hm
  simp only [opContrib]
  rw [if_pos]
  refine ⟨?_, ?_, ?_⟩
  · simp [nodeTriple, h1]
  · simp [nodeTriple, h1, ← hk]
  · simp [nodeTriple, h1, ← hk, h2]

theorem opContrib_mergeNode_of_not_match {l k : String} {bag : PropBag} {n : Node}
    (hk : k = canonKey l) (hm : nodeMatch l k (bagGet bag k) n = false) :
    opContrib (nodeTriple n) (Op.mergeNode l k bag) = [] := by
  simp only [opContrib]
  rw [if_neg]
  intro ⟨h1, h2, h3⟩
  have hlab : n.label = l := by simp [nodeTriple] at h1; exact h1.symm
  have hkey : n.props k = bagGet bag k := by
    rw [h3]
    simp [nodeTriple, hlab, ← hk]
  have htrue : nodeMatch l k (bagGet bag k) n = true :=
    nodeMatch_eq_true_iff.mpr ⟨hlab, hkey⟩
  rw [hm] at htrue
  exact Bool.noConfusion htrue

theorem mergeNode_establishes {g g' : Graph} {l k : String} {bag : PropBag}
    (hok : mergeNodeG g l k bag = Except.ok g') :
    bagGet bag k ≠ Val.vnull ∧ hasKey g' ⟨l, k, bagGet bag k⟩ := by
  have hs := mergeNodeG_spec g l k bag g' hok
  refine ⟨hs.1, ?_⟩
  have hlv : lastVal bag k = some (bagGet bag k) := bagGet_eq_some hs.1 rfl
  by_cases hany : g.nodes.any (nodeMatch l k (bagGet bag k)) = true
  · obtain ⟨n, hn, hmn⟩ := List.any_eq_true.mp hany
    obtain ⟨i, hi, hie⟩ := List.mem_iff_getElem.mp hn
    have hgd : g.nodes.getD i dummyNode = n := by
      rw [List.getD_eq_getElem _ _ hi]; exact hie
    obtain ⟨hlen, hupd⟩ := hs.2.2.1 hany
    have hm2 : nodeMatch l k (bagGet bag k) (g.nodes.getD i dummyNode) = true := by
      rw [hgd]; exact hmn
    obtain ⟨hlab, hprops⟩ := (hupd i hi).1 hm2
    refine ⟨g'.nodes.getD i dummyNode, getD_mem_of_lt _ i (by rw [hlen]; exact hi), ?_, ?_⟩
    · show (g'.nodes.getD i dummyNode).label = l
      rw [hlab, hgd]
      exact (nodeMatch_eq_true_iff.mp hmn).1
    · show (g'.nodes.getD i dummyNode).props k = bagGet bag k
      rw [hprops k, hlv]
  · have hfalse : g.nodes.any (nodeMatch l k (bagGet bag k)) = false := by
      cases hx : g.nodes.any (nodeMatch l k (bagGet bag k))
      · rfl
      · exact absurd hx hany
    have hnodes := hs.2.2.2 hfalse
    refine ⟨⟨l, plusEq (setProp emptyProps k (bagGet bag k)) bag⟩, ?_, rfl, ?_⟩
    · rw [hnodes]
      exact List.mem_append_right _ (List.mem_singleton.mpr rfl)
    · show plusEq (setProp emptyProps k (bagGet bag k)) bag k = bagGet bag k
      rw [plusEq_get, hlv]

theorem applyOpG_shape (g g' : Graph) (op : Op) (hwf : opWF op)
    (hnode : isNodePhase op = true) (hok : applyOpG g op = Except.ok g') :
    g'.edges = g.edges ∧
    g.nodes.length ≤ g'.nodes.length ∧
    (∀ i, i < g.nodes.length →
       (nthNode g' i).label = (nthNode g i).label ∧
       ∀ k0, (nthNode g' i).props k0 =
         plusEq (nthNode g i).props (opContrib (nodeTriple (nthNode g i)) op) k0) ∧
    (g'.nodes.length = g.nodes.length ∨
     (g'.nodes.length = g.nodes.length + 1 ∧
      ∃ t : NodeKey, opKeyOf op = some t ∧ t.key = canonKey t.lbl ∧
        t.val ≠ Val.vnull ∧ ¬ hasKey g t ∧
        (nthNode g' g.nodes.length).label = t.lbl ∧
        ∀ k0, (nthNode g' g.nodes.length).props k0 =
          plusEq (setProp emptyProps t.key t.val) (opContrib t op) k0)) := by
  cases op with
  | createNode l bag => exact absurd hnode (by simp [isNodePhase])
  | relMerge rt fl fcols a tl tcols b => exact absurd hnode (by simp [isNodePhase])
  | warn w =>
      have hg : g = g' := Except.ok.inj hok
      subst hg
      refine ⟨rfl, Nat.le_refl _, ?_, Or.inl rfl⟩
      intro i hi
      exact ⟨rfl, fun k0 => by simp [opContrib, plusEq_nil]⟩
  | mergeNode l k bag =>
      have hk : k = canonKey l := hwf
      have hs := mergeNodeG_spec g l k bag g' hok
      refine ⟨hs.2.1, ?_, ?_, ?_⟩
      · by_cases hany : g.nodes.any (nodeMatch l k (bagGet bag k)) = true
        · rw [(hs.2.2.1 hany).1]
        · have hfalse : g.nodes.any (nodeMatch l k (bagGet bag k)) = false := by
            cases hx : g.nodes.any (nodeMatch l k (bagGet bag k))
            · rfl
            · exact absurd hx hany
          rw [hs.2.2.2 hfalse]
          simp
      · intro i hi
        by_cases hany : g.nodes.any (nodeMatch l k (bagGet bag k)) = true
        · obtain ⟨hlen, hupd⟩ := hs.2.2.1 hany
          by_cases hmat : nodeMatch l k (bagGet bag k) (g.nodes.getD i dummyNode) = true
          · obtain ⟨hlab, hprops⟩ := (hupd i hi).1 hmat
            refine ⟨hlab, ?_⟩
            intro k0
            rw [show nthNode g' i = g'.nodes.getD i dummyNode from rfl, hprops k0]
            rw [show nthNode g i = g.nodes.getD i dummyNode from rfl]
            rw [opContrib_mergeNode_of_match hk hmat, plusEq_get]
          · have hmat2 : nodeMatch l k (bagGet bag k) (g.nodes.getD i dummyNode) = false := by
              cases hx : nodeMatch l k (bagGet bag k) (g.nodes.getD i dummyNode)
              · rfl
              · exact absurd hx hmat
            have heq := (hupd i hi).2 hmat2
            rw [show nthNode g' i = g'.nodes.getD i dummyNode from rfl,
              show nthNode g i = g.nodes.getD i dummyNode from rfl, heq]
            refine ⟨rfl, ?_⟩
            intro k0
            rw [opContrib_mergeNode_of_not_match hk hmat2, plusEq_nil]
        · have hfalse : g.nodes.any (nodeMatch l k (bagGet bag k)) = false := by
            cases hx : g.nodes.any (nodeMatch l k (bagGet bag k))
            · rfl
            · exact absurd hx hany
          have hnodes := hs.2.2.2 hfalse
          have hmat2 : nodeMatch l k (bagGet bag k) (g.nodes.getD i dummyNode) = false := by
            cases hx : nodeMatch l k (bagGet bag k) (g.nodes.getD i dummyNode)
            · rfl
            · exact absurd (List.any_eq_true.mpr
                ⟨g.nodes.getD i dummyNode, getD_mem_of_lt _ i hi, hx⟩) (by rw [hfalse]; simp)
          have heq : nthNode g' i = nthNode g i := by
            show g'.nodes.getD i dummyNode = g.nodes.getD i dummyNode
            rw [hnodes, getD_append_lt _ _ i hi]
          rw [heq]
          refine ⟨rfl, ?_⟩
          intro k0
          rw [show nthNode g i = g.nodes.getD i dummyNode from rfl,
            opContrib_mergeNode_of_not_match hk hmat2, plusEq_nil]
      · by_cases hany : g.nodes.any (nodeMatch l k (bagGet bag k)) = true
        · exact Or.inl (hs.2.2.1 hany).1
        · have hfalse : g.nodes.any (nodeMatch l k (bagGet bag k)) = false := by
            cases hx : g.nodes.any (nodeMatch l k (bagGet bag k))
            · rfl
            · exact absurd hx hany
          have hnodes := hs.2.2.2 hfalse
          right
          constructor
          · rw [hnodes]; simp
          refine ⟨⟨l, k, bagGet bag k⟩, rfl, hk, hs.1, ?_, ?_, ?_⟩
          · rw [hasKey_iff_any]
            intro hc
            rw [hfalse] at hc
            exact Bool.noConfusion hc
          · show (nthNode g' g.nodes.length).label = l
            rw [show nthNode g' g.nodes.length = g'.nodes.getD g.nodes.length dummyNode from rfl,
              hnodes, getD_snoc_self]
          · intro k0
            rw [show nthNode g' g.nodes.length = g'.nodes.getD g.nodes.length dummyNode from rfl,
              hnodes, getD_snoc_self]
            show plusEq (setProp emptyProps k (bagGet bag k)) bag k0 = _
            have hco : opContrib ⟨l, k, bagGet bag k⟩ (Op.mergeNode l k bag) = bag := by
              simp [opContrib]
            rw [hco]

/- Preservation and establishment of key triples. -/

theorem hasKey_preserved {g g' : Graph} {op : Op} (t : NodeKey)
    (ht : t.key = canonKey t.lbl) (hwf : opWF op)
    (hok : applyOpG g op = Except.ok g') (h : hasKey g t) : hasKey g' t := by
  cases op with
  | warn w =>
      have hg : g = g' := Except.ok.inj hok
      rw [← hg]; exact h
  | relMerge rt fl fcols a tl tcols b =>
      have hg : (relMergeG g rt fl fcols a tl tcols b).1 = g' := Except.ok.inj hok
      rw [← hg]
      exact (hasKey_congr_nodes rfl t).mp h
  | createNode l bag =>
      have hg : createNodeG g l bag = g' := Except.ok.inj hok
      rw [← hg]
      obtain ⟨n, hn, h1, h2⟩ := h
      exact ⟨n, List.mem_append_left _ hn, h1, h2⟩
  | mergeNode l k bag =>
      have hk : k = canonKey l := hwf
      have hs := mergeNodeG_spec g l k bag g' hok
      obtain ⟨n, hn, h1, h2⟩ := h
      obtain ⟨i, hi, hie⟩ := List.mem_iff_getElem.mp hn
      have hgd : g.nodes.getD i dummyNode = n := by
        rw [List.getD_eq_getElem _ _ hi]; exact hie
      by_cases hany : g.nodes.any (nodeMatch l k (bagGet bag k)) = true
      · obtain ⟨hlen, hupd⟩ := hs.2.2.1 hany
        by_cases hmat : nodeMatch l k (bagGet bag k) (g.nodes.getD i dummyNode) = true
        · obtain ⟨hlab, hprops⟩ := (hupd i hi).1 hmat
          obtain ⟨hm1, hm2⟩ := nodeMatch_eq_true_iff.mp (by rw [hgd] at hmat; exact hmat)
          have hlt : l = t.lbl := by rw [← hm1, h1]
          have hkt : k = t.key := by rw [ht, ← hlt, hk]
          have hvt : bagGet bag k = t.val := by rw [← hm2, hkt, h2]
          refine ⟨g'.nodes.getD i dummyNode,
            getD_mem_of_lt _ i (by rw [hlen]; exact hi), ?_, ?_⟩
          · rw [hlab, hgd, h1]
          · rw [hprops t.key, ← hkt, bagGet_eq_some hs.1 rfl, hvt]
        · have hmat2 : nodeMatch l k (bagGet bag k) (g.nodes.getD i dummyNode) = false := by
            cases hx : nodeMatch l k (bagGet bag k) (g.nodes.getD i dummyNode)
            · rfl
            · exact absurd hx hmat
          have heq := (hupd i hi).2 hmat2
          refine ⟨g'.nodes.getD i dummyNode,
            getD_mem_of_lt _ i (by rw [hlen]; exact hi), ?_, ?_⟩
          · rw [heq, hgd, h1]
          · rw [heq, hgd, h2]
      · have hfalse : g.nodes.any (nodeMatch l k (bagGet bag k)) = false := by
          cases hx : g.nodes.any (nodeMatch l k (bagGet bag k))
          · rfl
          · exact absurd hx hany
        have hnodes := hs.2.2.2 hfalse
        refine ⟨n, ?_, h1, h2⟩
        rw [hnodes]
        exact List.mem_append_left _ hn

theorem execG_preserves_hasKey (t : NodeKey) (ht : t.key = canonKey t.lbl) :
    ∀ (L : List Op) (g g1 : Graph), (∀ op ∈ L, opWF op) →
    execG g L = Except.ok g1 → hasKey g t → hasKey g1 t := by
  intro L
  induction L with
  | nil =>
      intro g g1 hwf hex h
      rw [← Except.ok.inj hex]; exact h
  | cons op rest ih =>
      intro g g1 hwf hex h
      rw [execG_cons] at hex
      cases happ : applyOpG g op with
      | error e => rw [happ] at hex; exact absurd hex (by simp)
      | ok ga =>
          rw [happ] at hex
          exact ih ga g1 (fun o ho => hwf o (List.mem_cons_of_mem op ho)) hex
            (hasKey_preserved t ht (hwf op (List.mem_cons_self op rest)) happ h)

theorem exec_establishes_keys :
    ∀ (L : List Op) (g g1 : Graph), (∀ op ∈ L, opWF op) →
    execG g L = Except.ok g1 →
    ∀ op ∈ L, ∀ t, opKeyOf op = some t →
      t.val ≠ Val.vnull ∧ t.key = canonKey t.lbl ∧ hasKey g1 t := by
  intro L
  induction L with
  | nil =>
      intro g g1 hwf hex op hop
      exact absurd hop (List.not_mem_nil op)
  | cons op0 rest ih =>
      intro g g1 hwf hex op hop t hkey
      rw [execG_cons] at hex
      cases happ : applyOpG g op0 with
      | error e => rw [happ] at hex; exact absurd hex (by simp)
      | ok ga =>
          rw [happ] at hex
          rcases List.mem_cons.mp hop with rfl | hrest
          · cases op with
            | mergeNode l k bag =>
                have ht : t = ⟨l, k, bagGet bag k⟩ := by
                  simp only [opKeyOf] at hkey
                  exact (Option.some.inj hkey).symm
                have hwf0 : opWF (Op.mergeNode l k bag) :=
                  hwf _ (List.mem_cons_self _ rest)
                have hkc : t.key = canonKey t.lbl := by rw [ht]; exact hwf0
                have hest := @mergeNode_establishes g ga l k bag (by exact happ)
                refine ⟨by rw [ht]; exact hest.1, hkc, ?_⟩
                exact execG_preserves_hasKey t hkc rest ga g1
                  (fun o ho => hwf o (List.mem_cons_of_mem _ ho)) hex
                  (by rw [ht]; exact hest.2)
            | createNode l bag => exact absurd hkey (by simp [opKeyOf])
            | relMerge rt fl fcols a tl tcols b => exact absurd hkey (by simp [opKeyOf])
            | warn w => exact absurd hkey (by simp [opKeyOf])
          · exact ih ga g1 (fun o ho => hwf o (List.mem_cons_of_mem _ ho)) hex op hrest t hkey

/- Pass-1 characterization: after a successful node-phase run every node is
its base (original node or creation key) updated by all bags for its key. -/

theorem plusEq_congr_base {p q : Props} (B : PropBag) (k : String)
    (h : p k = q k) : plusEq p B k = plusEq q B k := by
  rw [plusEq_get, plusEq_get]
  cases lastVal B k with
  | some v => rfl
  | none => exact h

theorem plusEq_opContrib_key {p : Props} {t : NodeKey} (op : Op)
    (hp : p t.key = t.val) : plusEq p (opContrib t op) t.key = t.val := by
  have h : opContrib t op = bagsFor [op] t := by
    rw [bagsFor_cons, bagsFor_nil, List.append_nil]
  rw [h]
  exact plusEq_bagsFor_key [op] hp

theorem pass1_char :
    ∀ (L : List Op) (g0 g1 : Graph),
      (∀ op ∈ L, opWF op ∧ isNodePhase op = true) →
      execG g0 L = Except.ok g1 →
      g1.edges = g0.edges ∧
      g0.nodes.length ≤ g1.nodes.length ∧
      (∀ i, i < g0.nodes.length →
         (nthNode g1 i).label = (nthNode g0 i).label ∧
         ∀ k, (nthNode g1 i).props k =
           plusEq (nthNode g0 i).props (bagsFor L (nodeTriple (nthNode g0 i))) k) ∧
      (∀ i, g0.nodes.length ≤ i → i < g1.nodes.length →
         ∃ t : NodeKey, t.key = canonKey t.lbl ∧ t.val ≠ Val.vnull ∧ ¬ hasKey g0 t ∧
           (nthNode g1 i).label = t.lbl ∧
           ∀ k, (nthNode g1 i).props k =
             plusEq (setProp emptyProps t.key t.val) (bagsFor L t) k) := by
  intro L
  induction L with
  | nil =>
      intro g0 g1 hwf hex
      have hg : g0 = g1 := Except.ok.inj hex
      subst hg
      refine ⟨rfl, Nat.le_refl _, ?_, ?_⟩
      · intro i hi
        exact ⟨rfl, fun k => by rw [bagsFor_nil, plusEq_nil]⟩
      · intro i hge hlt
        omega
  | cons op rest ih =>
      intro g0 g1 hwf hex
      rw [execG_cons] at hex
      cases happ : applyOpG g0 op with
      | error e => rw [happ] at hex; exact absurd hex (by simp)
      | ok ga =>
          rw [happ] at hex
          have hwf0 := hwf op (List.mem_cons_self op rest)
          have hwfr : ∀ o ∈ rest, opWF o ∧ isNodePhase o = true :=
            fun o ho => hwf o (List.mem_cons_of_mem op ho)
          obtain ⟨Sedges, Slen, Sold, Screate⟩ :=
            applyOpG_shape g0 ga op hwf0.1 hwf0.2 happ
          obtain ⟨Iedges, Ilen, Iold, Icreate⟩ := ih ga g1 hwfr hex
          refine ⟨by rw [Iedges, Sedges], Nat.le_trans Slen Ilen, ?_, ?_⟩
          · intro i hi
            have hia : i < ga.nodes.length := Nat.lt_of_lt_of_le hi Slen
            obtain ⟨hlab0, hprops0⟩ := Sold i hi
            obtain ⟨hlab1, hprops1⟩ := Iold i hia
            have hkeyval : (nthNode ga i).props (canonKey (nthNode g0 i).label) =
                (nthNode g0 i).props (canonKey (nthNode g0 i).label) := by
              rw [hprops0 (canonKey (nthNode g0 i).label)]
              exact plusEq_opContrib_key op rfl
            have htriple : nodeTriple (nthNode ga i) = nodeTriple (nthNode g0 i) := by
              unfold nodeTriple
              rw [hlab0, hkeyval]
            refine ⟨by rw [hlab1, hlab0], ?_⟩
            intro k
            rw [hprops1 k, htriple]
            have hbase := plusEq_congr_base
              (bagsFor rest (nodeTriple (nthNode g0 i))) k (hprops0 k)
            rw [hbase, ← plusEq_append, ← bagsFor_cons]
          · intro i hge hlt
            by_cases hia : i < ga.nodes.length
            · rcases Screate with hlen | ⟨hlen, t, hkey, htk, htv, hnk, hlabn, hpropsn⟩
              · omega
              · have hieq : i = g0.nodes.length := by omega
                subst hieq
                obtain ⟨hlab1, hprops1⟩ := Iold g0.nodes.length hia
                have hkeyval : (nthNode ga g0.nodes.length).props t.key = t.val := by
                  rw [hpropsn t.key]
                  exact plusEq_opContrib_key op (by simp [setProp])
                have htriple : nodeTriple (nthNode ga g0.nodes.length) = t := by
                  unfold nodeTriple
                  rw [hlabn, ← htk, hkeyval]
                refine ⟨t, htk, htv, hnk, by rw [hlab1, hlabn], ?_⟩
                intro k
                rw [hprops1 k, htriple]
                have hbase := @plusEq_congr_base
                  (nthNode ga g0.nodes.length).props
                  (plusEq (setProp emptyProps t.key t.val) (opContrib t op))
                  (bagsFor rest t) k (hpropsn k)
                rw [hbase, ← plusEq_append, ← bagsFor_cons]
            · have hgea : ga.nodes.length ≤ i := Nat.le_of_not_lt hia
              obtain ⟨t, htk, htv, hnka, hlabn, hpropsn⟩ := Icreate i hgea hlt
              have hnk0 : ¬ hasKey g0 t := by
                intro h
                exact hnka (hasKey_preserved t htk hwf0.1 happ h)
              have hcontrib : opContrib t op = [] := by
                cases op with
                | warn w => rfl
                | createNode l bag => rfl
                | relMerge rt fl fcols a tl tcols b => rfl
                | mergeNode l k bag =>
                    simp only [opContrib]
                    rw [if_neg]
                    intro ⟨h1, h2, h3⟩
                    have hest := @mergeNode_establishes g0 ga l k bag (by exact happ)
                    have hte : (⟨l, k, bagGet bag k⟩ : NodeKey) = t := by
                      cases t
                      simp at h1 h2 h3 ⊢
                      exact ⟨h1, h2, h3⟩
                    rw [hte] at hest
                    exact hnka hest.2
              refine ⟨t, htk, htv, hnk0, hlabn, ?_⟩
              intro k
              rw [hpropsn k, bagsFor_cons, hcontrib, List.nil_append]

theorem nodeTriple_eq_of (n m : Node) (hlab : m.label = n.label)
    (hval : m.props (canonKey n.label) = n.props (canonKey n.label)) :
    nodeTriple m = nodeTriple n := by
  unfold nodeTriple
  rw [hlab, hval]

theorem nodeTriple_eq_key (n : Node) (t : NodeKey) (htk : t.key = canonKey t.lbl)
    (hlab : n.label = t.lbl) (hval : n.props t.key = t.val) : nodeTriple n = t := by
  unfold nodeTriple
  rw [hlab, ← htk, hval]

/-- After a successful node phase, re-applying all bags of a node's own key
changes nothing (saturation). -/
theorem saturation (L : List Op) (g0 g1 : Graph)
    (hwf : ∀ op ∈ L, opWF op ∧ isNodePhase op = true)
    (hex : execG g0 L = Except.ok g1) :
    ∀ i, i < g1.nodes.length →
      ∀ k, plusEq (nthNode g1 i).props (bagsFor L (nodeTriple (nthNode g1 i))) k =
        (nthNode g1 i).props k := by
  obtain ⟨_, hlen, hold, hcreate⟩ := pass1_char L g0 g1 hwf hex
  intro i hi k
  by_cases hio : i < g0.nodes.length
  · obtain ⟨hlab, hprops⟩ := hold i hio
    have hval : (nthNode g1 i).props (canonKey (nthNode g0 i).label) =
        (nthNode g0 i).props (canonKey (nthNode g0 i).label) := by
      rw [hprops (canonKey (nthNode g0 i).label)]
      exact plusEq_bagsFor_key L rfl
    have htr : nodeTriple (nthNode g1 i) = nodeTriple (nthNode g0 i) :=
      nodeTriple_eq_of (nthNode g0 i) (nthNode g1 i) hlab hval
    rw [htr]
    have hb := plusEq_congr_base
      (bagsFor L (nodeTriple (nthNode g0 i))) k (hprops k)
    rw [hb, hprops k]
    exact plusEq_absorb _ _ k
  · obtain ⟨t, htk, htv, hnk, hlab, hprops⟩ := hcreate i (Nat.le_of_not_lt hio) hi
    have htr : nodeTriple (nthNode g1 i) = t := by
      refine nodeTriple_eq_key _ t htk hlab ?_
      rw [hprops t.key]
      exact plusEq_bagsFor_key L (by simp [setProp])
    rw [htr]
    have hb := plusEq_congr_base (bagsFor L t) k (hprops k)
    rw [hb, hprops k]
    exact plusEq_absorb _ _ k

theorem mergeNodeG_isOk {g : Graph} {l k : String} {bag : PropBag}
    (hv : bagGet bag k ≠ Val.vnull) : ∃ g2, mergeNodeG g l k bag = Except.ok g2 := by
  simp only [mergeNodeG]
  rw [if_neg hv]
  by_cases hany : g.nodes.any (nodeMatch l k (bagGet bag k)) = true
  · rw [if_pos hany]; exact ⟨_, rfl⟩
  · rw [if_neg hany]; exact ⟨_, rfl⟩

/-- Replaying the node phase over its own result: every merge finds a match,
no node is created, and each node accumulates the replayed bags. -/
theorem replay_nodes :
    ∀ (T D : List Op) (G1 h : Graph),
      (∀ op ∈ T, opWF op ∧ isNodePhase op = true) →
      (∀ op ∈ T, ∀ t, opKeyOf op = some t → t.val ≠ Val.vnull ∧ hasKey G1 t) →
      h.edges = G1.edges →
      h.nodes.length = G1.nodes.length →
      (∀ i, i < G1.nodes.length →
         (nthNode h i).label = (nthNode G1 i).label ∧
         ∀ k, (nthNode h i).props k =
           plusEq (nthNode G1 i).props (bagsFor D (nodeTriple (nthNode G1 i))) k) →
      ∃ h1, execG h T = Except.ok h1 ∧ h1.edges = G1.edges ∧
        h1.nodes.length = G1.nodes.length ∧
        (∀ i, i < G1.nodes.length →
           (nthNode h1 i).label = (nthNode G1 i).label ∧
           ∀ k, (nthNode h1 i).props k =
             plusEq (nthNode G1 i).props (bagsFor (D ++ T) (nodeTriple (nthNode G1 i))) k) := by
  intro T
  induction T with
  | nil =>
      intro D G1 h hwf hkeys hedges hlen hinv
      refine ⟨h, rfl, hedges, hlen, ?_⟩
      rw [List.append_nil]
      exact hinv
  | cons op T2 ih =>
      intro D G1 h hwf hkeys hedges hlen hinv
      have hwf0 := hwf op (List.mem_cons_self op T2)
      have hwfr : ∀ o ∈ T2, opWF o ∧ isNodePhase o = true :=
        fun o ho => hwf o (List.mem_cons_of_mem op ho)
      have hkeysr : ∀ o ∈ T2, ∀ t, opKeyOf o = some t →
          t.val ≠ Val.vnull ∧ hasKey G1 t :=
        fun o ho => hkeys o (List.mem_cons_of_mem op ho)
      cases op with
      | createNode l bag => exact absurd hwf0.2 (by simp [isNodePhase])
      | relMerge rt fl fcols a tl tcols b => exact absurd hwf0.2 (by simp [isNodePhase])
      | warn w =>
          have hinv2 : ∀ i, i < G1.nodes.length →
              (nthNode h i).label = (nthNode G1 i).label ∧
              ∀ k, (nthNode h i).props k =
                plusEq (nthNode G1 i).props
                  (bagsFor (D ++ [Op.warn w]) (nodeTriple (nthNode G1 i))) k := by
            intro i hi
            refine ⟨(hinv i hi).1, ?_⟩
            intro k
            rw [bagsFor_append, bagsFor_cons, bagsFor_nil]
            simp only [opContrib, List.append_nil]
            exact (hinv i hi).2 k
          obtain ⟨h1, hex1, he1, hl1, hc1⟩ :=
            ih (D ++ [Op.warn w]) G1 h hwfr hkeysr hedges hlen hinv2
          refine ⟨h1, ?_, he1, hl1, ?_⟩
          · rw [execG_cons]
            exact hex1
          · intro i hi
            refine ⟨(hc1 i hi).1, ?_⟩
            intro k
            rw [show D ++ Op.warn w :: T2 = (D ++ [Op.warn w]) ++ T2 by simp]
            exact (hc1 i hi).2 k
      | mergeNode l k bag =>
          have hk : k = canonKey l := hwf0.1
          obtain ⟨htv, hhk⟩ := hkeys _ (List.mem_cons_self _ T2) ⟨l, k, bagGet bag k⟩ rfl
          have hprop_at_k : ∀ i, i < G1.nodes.length → (nthNode G1 i).label = l →
              (nthNode h i).props k = (nthNode G1 i).props k := by
            intro i hi hlabi
            have hkk : (nodeTriple (nthNode G1 i)).key = k := by
              show canonKey (nthNode G1 i).label = k
              rw [hlabi, ← hk]
            have h1 := (hinv i hi).2 k
            rw [h1, ← hkk]
            exact plusEq_bagsFor_key D rfl
          -- the merge finds a match in h
          obtain ⟨n, hn, hn1, hn2⟩ := hhk
          obtain ⟨j, hj, hje⟩ := List.mem_iff_getElem.mp hn
          have hgd : nthNode G1 j = n := by
            show G1.nodes.getD j dummyNode = n
            rw [List.getD_eq_getElem _ _ hj]; exact hje
          have hmatch_h : nodeMatch l k (bagGet bag k) (nthNode h j) = true := by
            rw [nodeMatch_eq_true_iff]
            constructor
            · rw [(hinv j hj).1, hgd]; exact hn1
            · rw [hprop_at_k j hj (by rw [hgd]; exact hn1), hgd]; exact hn2
          have hany : h.nodes.any (nodeMatch l k (bagGet bag k)) = true :=
            List.any_eq_true.mpr ⟨nthNode h j,
              getD_mem_of_lt _ j (by rw [hlen]; exact hj), hmatch_h⟩
          obtain ⟨h2, hok2⟩ := @mergeNodeG_isOk h l k bag htv
          have hs := mergeNodeG_spec h l k bag h2 hok2
          obtain ⟨hlen2, hupd⟩ := hs.2.2.1 hany
          -- matched nodes of h are exactly those whose G1 partner has key triple l,k,v
          have hmatch_iff : ∀ i, i < G1.nodes.length →
              (nodeMatch l k (bagGet bag k) (nthNode h i) = true ↔
                nodeTriple (nthNode G1 i) = ⟨l, k, bagGet bag k⟩) := by
            intro i hi
            constructor
            · intro hm
              obtain ⟨hm1, hm2⟩ := nodeMatch_eq_true_iff.mp hm
              have hlabi : (nthNode G1 i).label = l := by rw [← (hinv i hi).1]; exact hm1
              refine nodeTriple_eq_key _ _ (by show k = canonKey l; exact hk) hlabi ?_
              show (nthNode G1 i).props k = bagGet bag k
              rw [← hprop_at_k i hi hlabi]
              exact hm2
            · intro ht
              rw [nodeMatch_eq_true_iff]
              have hlabi : (nthNode G1 i).label = l := by
                have := congrArg NodeKey.lbl ht
                simpa [nodeTriple] using this
              constructor
              · rw [(hinv i hi).1]; exact hlabi
              · rw [hprop_at_k i hi hlabi]
                have := congrArg NodeKey.val ht
                simp only [nodeTriple] at this
                rw [← this, hlabi, ← hk]
          have hinv2 : ∀ i, i < G1.nodes.length →
              (nthNode h2 i).label = (nthNode G1 i).label ∧
              ∀ k0, (nthNode h2 i).props k0 =
                plusEq (nthNode G1 i).props
                  (bagsFor (D ++ [Op.mergeNode l k bag]) (nodeTriple (nthNode G1 i))) k0 := by
            intro i hi
            have hih : i < h.nodes.length := by rw [hlen]; exact hi
            by_cases hmat : nodeMatch l k (bagGet bag k) (nthNode h i) = true
            · obtain ⟨hlab2, hprops2⟩ := (hupd i hih).1 hmat
              have htg := (hmatch_iff i hi).mp hmat
              have hcontrib : opContrib (nodeTriple (nthNode G1 i))
                  (Op.mergeNode l k bag) = bag := by
                rw [htg]
                simp [opContrib]
              constructor
              · show (h2.nodes.getD i dummyNode).label = (G1.nodes.getD i dummyNode).label
                exact hlab2.trans ((hinv i hi).1)
              intro k0
              have hp2 : (nthNode h2 i).props k0 = plusEq (nthNode h i).props bag k0 := by
                show (h2.nodes.getD i dummyNode).props k0 = _
                rw [hprops2 k0, ← plusEq_get]
                rfl
              rw [hp2]
              have hb := plusEq_congr_base bag k0 ((hinv i hi).2 k0)
              rw [hb, ← plusEq_append]
              rw [bagsFor_append, bagsFor_cons, bagsFor_nil, List.append_nil, hcontrib]
            · have hmat2 : nodeMatch l k (bagGet bag k) (nthNode h i) = false := by
                cases hx : nodeMatch l k (bagGet bag k) (nthNode h i)
                · rfl
                · exact absurd hx hmat
              have heq := (hupd i hih).2 hmat2
              have hcontrib : opContrib (nodeTriple (nthNode G1 i))
                  (Op.mergeNode l k bag) = [] := by
                simp only [opContrib]
                rw [if_neg]
                intro ⟨hc1, hc2, hc3⟩
                have htg : nodeTriple (nthNode G1 i) = ⟨l, k, bagGet bag k⟩ := by
                  cases hT : nodeTriple (nthNode G1 i)
                  rw [hT] at hc1 hc2 hc3
                  simp at hc1 hc2 hc3
                  rw [← hc3, ← hc1, ← hc2]
                exact absurd ((hmatch_iff i hi).mpr htg)
                  (by rw [hmat2]; exact fun hx => Bool.noConfusion hx)
              refine ⟨?_, ?_⟩
              · show (nthNode h2 i).label = _
                rw [show nthNode h2 i = h2.nodes.getD i dummyNode from rfl, heq]
                exact (hinv i hi).1
              · intro k0
                rw [show nthNode h2 i = h2.nodes.getD i dummyNode from rfl, heq]
                rw [bagsFor_append, bagsFor_cons, bagsFor_nil, List.append_nil, hcontrib,
                  List.append_nil]
                exact (hinv i hi).2 k0
          obtain ⟨h1, hex1, he1, hl1, hc1⟩ :=
            ih (D ++ [Op.mergeNode l k bag]) G1 h2 hwfr hkeysr
              (by rw [hs.2.1]; exact hedges) (by rw [hlen2]; exact hlen) hinv2
          refine ⟨h1, ?_, he1, hl1, ?_⟩
          · rw [execG_cons]
            show (match applyOpG h (Op.mergeNode l k bag) with
              | Except.ok g2 => execG g2 T2
              | Except.error e => Except.error e) = _
            rw [show applyOpG h (Op.mergeNode l k bag) = mergeNodeG h l k bag from rfl, hok2]
            exact hex1
          · intro i hi
            refine ⟨(hc1 i hi).1, ?_⟩
            intro k0
            rw [show D ++ Op.mergeNode l k bag :: T2 =
              (D ++ [Op.mergeNode l k bag]) ++ T2 by simp]
            exact (hc1 i hi).2 k0

/- Relationship phase: edges only grow, nodes never change. -/

theorem addEdges_cons (es : List Edge) (x : Edge) (t : List Edge) :
    addEdges es (x :: t) = addEdges (if es.contains x then es else es ++ [x]) t := rfl

theorem addEdges_subset (new : List Edge) :
    ∀ (es : List Edge), ∀ e ∈ es, e ∈ addEdges es new := by
  induction new with
  | nil => intro es e he; exact he
  | cons x t ih =>
      intro es e he
      rw [addEdges_cons]
      apply ih
      by_cases hc : es.contains x = true
      · rw [if_pos hc]; exact he
      · rw [if_neg hc]; exact List.mem_append_left _ he

theorem addEdges_mem (new : List Edge) :
    ∀ (es : List Edge), ∀ e ∈ new, e ∈ addEdges es new := by
  induction new with
  | nil => intro es e he; exact absurd he (List.not_mem_nil e)
  | cons x t ih =>
      intro es e he
      rw [addEdges_cons]
      rcases List.mem_cons.mp he with rfl | ht
      · apply addEdges_subset
        by_cases hc : es.contains e = true
        · rw [if_pos hc]; simpa using hc
        · rw [if_neg hc]; exact List.mem_append_right _ (List.mem_singleton.mpr rfl)
      · exact ih _ e ht

theorem addEdges_eq_of_subset (new : List Edge) :
    ∀ (es : List Edge), (∀ e ∈ new, e ∈ es) → addEdges es new = es := by
  induction new with
  | nil => intro es h; rfl
  | cons x t ih =>
      intro es h
      rw [addEdges_cons]
      have hc : es.contains x = true := by
        simpa using h x (List.mem_cons_self x t)
      rw [if_pos hc]
      exact ih es (fun e he => h e (List.mem_cons_of_mem x he))

theorem relPairs_congr_nodes {g g2 : Graph} (h : g.nodes = g2.nodes)
    (rt fl : String) (fcols : List String) (a : Int) (tl : String)
    (tcols : List String) (b : Int) :
    relPairs g rt fl fcols a tl tcols b = relPairs g2 rt fl fcols a tl tcols b := by
  unfold relPairs matchIdx
  rw [h]

theorem coalesceP_congr {p q : Props} (cols : List String) (h : ∀ c, p c = q c) :
    coalesceP p cols = coalesceP q cols := by
  induction cols with
  | nil => rfl
  | cons c t ih =>
      show (if p c ≠ Val.vnull then p c else coalesceP p t) = _
      rw [h c, ih]
      rfl

theorem endpointMatch_congr {n m : Node} (hl : n.label = m.label)
    (hp : ∀ c, n.props c = m.props c) (lbl : String) (cols : List String) (idv : Int) :
    endpointMatch lbl cols idv n = endpointMatch lbl cols idv m := by
  unfold endpointMatch
  rw [hl, coalesceP_congr cols hp]

theorem matchIdx_congr {g g2 : Graph} (hlen : g.nodes.length = g2.nodes.length)
    (hn : ∀ i, i < g2.nodes.length →
      (nthNode g i).label = (nthNode g2 i).label ∧
      ∀ c, (nthNode g i).props c = (nthNode g2 i).props c)
    (lbl : String) (cols : List String) (idv : Int) :
    matchIdx g lbl cols idv = matchIdx g2 lbl cols idv := by
  unfold matchIdx
  rw [hlen]
  apply List.filter_congr
  intro i hi
  have hi2 : i < g2.nodes.length := List.mem_range.mp hi
  exact endpointMatch_congr (hn i hi2).1 (hn i hi2).2 lbl cols idv

theorem relPairs_congr_ext {g g2 : Graph} (hlen : g.nodes.length = g2.nodes.length)
    (hn : ∀ i, i < g2.nodes.length →
      (nthNode g i).label = (nthNode g2 i).label ∧
      ∀ c, (nthNode g i).props c = (nthNode g2 i).props c)
    (rt fl : String) (fcols : List String) (a : Int) (tl : String)
    (tcols : List String) (b : Int) :
    relPairs g rt fl fcols a tl tcols b = relPairs g2 rt fl fcols a tl tcols b := by
  unfold relPairs
  rw [matchIdx_congr hlen hn fl fcols a, matchIdx_congr hlen hn tl tcols b]

/-- A successful relationship phase never touches nodes, only grows edges,
and ends with every resolved pair present as an edge. -/
theorem relPhase_exec :
    ∀ (L : List Op) (g g1 : Graph), (∀ op ∈ L, isRelPhase op = true) →
      execG g L = Except.ok g1 →
      g1.nodes = g.nodes ∧ (∀ e ∈ g.edges, e ∈ g1.edges) ∧
      (∀ op ∈ L, ∀ rt fl fcols a tl tcols b,
         op = Op.relMerge rt fl fcols a tl tcols b →
         ∀ e ∈ relPairs g1 rt fl fcols a tl tcols b, e ∈ g1.edges) := by
  intro L
  induction L with
  | nil =>
      intro g g1 hrel hex
      have hg : g = g1 := Except.ok.inj hex
      subst hg
      exact ⟨rfl, fun e he => he, fun op hop => absurd hop (List.not_mem_nil op)⟩
  | cons op rest ih =>
      intro g g1 hrel hex
      rw [execG_cons] at hex
      cases happ : applyOpG g op with
      | error e => rw [happ] at hex; exact absurd hex (by simp)
      | ok ga =>
          rw [happ] at hex
          have hrelr : ∀ o ∈ rest, isRelPhase o = true :=
            fun o ho => hrel o (List.mem_cons_of_mem op ho)
          obtain ⟨Inodes, Iedges, Irels⟩ := ih ga g1 hrelr hex
          cases op with
          | mergeNode l k bag =>
              exact absurd (hrel _ (List.mem_cons_self _ rest)) (by simp [isRelPhase])
          | createNode l bag =>
              exact absurd (hrel _ (List.mem_cons_self _ rest)) (by simp [isRelPhase])
          | warn w =>
              have hg : g = ga := Except.ok.inj happ
              subst hg
              refine ⟨Inodes, Iedges, ?_⟩
              intro o ho rt fl fcols a tl tcols b heq
              rcases List.mem_cons.mp ho with rfl | ht
              · exact absurd heq (by simp)
              · exact Irels o ht rt fl fcols a tl tcols b heq
          | relMerge rt0 fl0 fcols0 a0 tl0 tcols0 b0 =>
              have hga : (relMergeG g rt0 fl0 fcols0 a0 tl0 tcols0 b0).1 = ga :=
                Except.ok.inj happ
              have hganodes : ga.nodes = g.nodes := by rw [← hga]; rfl
              have hgaedges : ga.edges =
                  addEdges g.edges (relPairs g rt0 fl0 fcols0 a0 tl0 tcols0 b0) := by
                rw [← hga]; rfl
              refine ⟨by rw [Inodes, hganodes], ?_, ?_⟩
              · intro e he
                apply Iedges
                rw [hgaedges]
                exact addEdges_subset _ _ e he
              · intro o ho rt fl fcols a tl tcols b heq
                rcases List.mem_cons.mp ho with rfl | ht
                · intro e he
                  injection heq with h1 h2 h3 h4 h5 h6 h7
                  subst h1; subst h2; subst h3; subst h4; subst h5; subst h6; subst h7
                  have hpairs : relPairs g1 rt0 fl0 fcols0 a0 tl0 tcols0 b0 =
                      relPairs g rt0 fl0 fcols0 a0 tl0 tcols0 b0 :=
                    relPairs_congr_nodes (by rw [Inodes, hganodes]) _ _ _ _ _ _ _
                  rw [hpairs] at he
                  apply Iedges
                  rw [hgaedges]
                  exact addEdges_mem _ _ e he
                · exact Irels o ht rt fl fcols a tl tcols b heq

/-- Replaying the relationship phase over a graph extensionally equal to its
own result adds no edge. -/
theorem replay_rels :
    ∀ (T : List Op) (G1 h : Graph),
      (∀ op ∈ T, isRelPhase op = true) →
      (∀ op ∈ T, ∀ rt fl fcols a tl tcols b,
         op = Op.relMerge rt fl fcols a tl tcols b →
         ∀ e ∈ relPairs G1 rt fl fcols a tl tcols b, e ∈ G1.edges) →
      h.edges = G1.edges →
      h.nodes.length = G1.nodes.length →
      (∀ i, i < G1.nodes.length →
         (nthNode h i).label = (nthNode G1 i).label ∧
         ∀ c, (nthNode h i).props c = (nthNode G1 i).props c) →
      ∃ h1, execG h T = Except.ok h1 ∧ h1.edges = G1.edges ∧ h1.nodes = h.nodes := by
  intro T
  induction T with
  | nil =>
      intro G1 h hrel hclosed hedges hlen hinv
      exact ⟨h, rfl, hedges, rfl⟩
  | cons op rest ih =>
      intro G1 h hrel hclosed hedges hlen hinv
      have hrelr : ∀ o ∈ rest, isRelPhase o = true :=
        fun o ho => hrel o (List.mem_cons_of_mem op ho)
      have hclosedr : ∀ o ∈ rest, ∀ rt fl fcols a tl tcols b,
          o = Op.relMerge rt fl fcols a tl tcols b →
          ∀ e ∈ relPairs G1 rt fl fcols a tl tcols b, e ∈ G1.edges :=
        fun o ho => hclosed o (List.mem_cons_of_mem op ho)
      cases op with
      | mergeNode l k bag =>
          exact absurd (hrel _ (List.mem_cons_self _ rest)) (by simp [isRelPhase])
      | createNode l bag =>
          exact absurd (hrel _ (List.mem_cons_self _ rest)) (by simp [isRelPhase])
      | warn w =>
          obtain ⟨h1, hex1, he1, hn1⟩ := ih G1 h hrelr hclosedr hedges hlen hinv
          exact ⟨h1, by rw [execG_cons]; exact hex1, he1, hn1⟩
      | relMerge rt fl fcols a tl tcols b =>
          have hpairs : relPairs h rt fl fcols a tl tcols b =
              relPairs G1 rt fl fcols a tl tcols b :=
            relPairs_congr_ext hlen hinv _ _ _ _ _ _ _
          have hsub : ∀ e ∈ relPairs h rt fl fcols a tl tcols b, e ∈ h.edges := by
            intro e he
            rw [hpairs] at he
            rw [hedges]
            exact hclosed _ (List.mem_cons_self _ rest) rt fl fcols a tl tcols b rfl e he
          have hadd : addEdges h.edges (relPairs h rt fl fcols a tl tcols b) = h.edges :=
            addEdges_eq_of_subset _ _ hsub
          have hga : applyOpG h (Op.relMerge rt fl fcols a tl tcols b) =
              Except.ok (relMergeG h rt fl fcols a tl tcols b).1 := rfl
          have hganodes : (relMergeG h rt fl fcols a tl tcols b).1.nodes = h.nodes := rfl
          have hgaedges : (relMergeG h rt fl fcols a tl tcols b).1.edges = h.edges := by
            show addEdges h.edges (relPairs h rt fl fcols a tl tcols b) = h.edges
            exact hadd
          obtain ⟨h1, hex1, he1, hn1⟩ :=
            ih G1 (relMergeG h rt fl fcols a tl tcols b).1 hrelr hclosedr
              (by rw [hgaedges]; exact hedges)
              (by rw [hganodes]; exact hlen)
              (by
                intro i hi
                have : nthNode (relMergeG h rt fl fcols a tl tcols b).1 i = nthNode h i := by
                  show (relMergeG h rt fl fcols a tl tcols b).1.nodes.getD i dummyNode = _
                  rw [hganodes]
                  rfl
                rw [this]
                exact hinv i hi)
          refine ⟨h1, ?_, he1, ?_⟩
          · rw [execG_cons, hga]
            exact hex1
          · rw [hn1, hganodes]

/- Glue: under the corrected side conditions the whole ingestion is
idempotent. -/

theorem Node_ext_of (n m : Node) (hl : n.label = m.label)
    (hp : ∀ k, n.props k = m.props k) : n = m := by
  cases n with
  | mk l p =>
    cases m with
    | mk l2 p2 =>
      have hl2 : l = l2 := hl
      subst hl2
      have hp2 : p = p2 := funext hp
      rw [hp2]

theorem nodes_ext (l m : List Node) (hlen : l.length = m.length)
    (h : ∀ i, i < l.length → l.getD i dummyNode = m.getD i dummyNode) : l = m := by
  apply List.ext_getElem hlen
  intro i h1 h2
  have hh := h i h1
  rw [List.getD_eq_getElem?_getD, List.getD_eq_getElem?_getD,
    List.getElem?_eq_getElem h1, List.getElem?_eq_getElem h2] at hh
  simpa using hh

/-- Claim C1 (corrected): ingestion is idempotent on the graph provided the
operations the files generate split into a node phase (MERGE-by-canonical-key
node operations: every Club row coerces to an integer id, so no unconditional
CREATE occurs) followed by a relationship phase (every node file precedes
every relationship file in the dict iteration order). Then whenever the first
run from any graph succeeds, immediately re-running the same file mapping on
its result succeeds and returns the very same graph: no node appears, no
property changes, and no edge is added. The claim as frozen, with no such
side conditions, is refuted by ingest_twice_not_idempotent_cx. -/
theorem ingestion_idempotent (files : List (String × String))
    (L1 L2 : List Op) (g0 : Graph) (s1 : IngestState)
    (hsplit : opsOf files = L1 ++ L2)
    (hL1 : ∀ op ∈ L1, isNodePhase op = true)
    (hL2 : ∀ op ∈ L2, isRelPhase op = true)
    (hrun : runIngest g0 files = Except.ok s1) :
    ∃ s2, runIngest s1.graph files = Except.ok s2 ∧ s2.graph = s1.graph := by
  have hg1 : execG g0 (opsOf files) = Except.ok s1.graph := by
    have h := execOps_graph (opsOf files) (initState g0)
    rw [show execOps (initState g0) (opsOf files) = runIngest g0 files from rfl,
      hrun] at h
    exact h.symm
  rw [hsplit, execG_append] at hg1
  cases hmid : execG g0 L1 with
  | error e => rw [hmid] at hg1; exact absurd hg1 (by simp)
  | ok Gmid =>
    rw [hmid] at hg1
    have hwf1 : ∀ op ∈ L1, opWF op ∧ isNodePhase op = true := by
      intro op hop
      exact ⟨opsOf_wf files op (by rw [hsplit]; exact List.mem_append_left _ hop),
        hL1 op hop⟩
    obtain ⟨hNodesEq, hEdgesMono, hClosed⟩ := relPhase_exec L2 Gmid s1.graph hL2 hg1
    have hkeys : ∀ op ∈ L1, ∀ t, opKeyOf op = some t →
        t.val ≠ Val.vnull ∧ hasKey s1.graph t := by
      intro op hop t ht
      obtain ⟨h1, h2, h3⟩ := exec_establishes_keys L1 g0 Gmid
        (fun o ho => (hwf1 o ho).1) hmid op hop t ht
      exact ⟨h1, (hasKey_congr_nodes hNodesEq.symm t).mp h3⟩
    have hnthEq : ∀ i, nthNode s1.graph i = nthNode Gmid i := by
      intro i
      show s1.graph.nodes.getD i dummyNode = Gmid.nodes.getD i dummyNode
      rw [hNodesEq]
    have hlenEq : s1.graph.nodes.length = Gmid.nodes.length := by rw [hNodesEq]
    have hsatMid := saturation L1 g0 Gmid hwf1 hmid
    have hsat : ∀ i, i < s1.graph.nodes.length → ∀ k,
        plusEq (nthNode s1.graph i).props
          (bagsFor L1 (nodeTriple (nthNode s1.graph i))) k =
          (nthNode s1.graph i).props k := by
      intro i hi k
      rw [hnthEq i]
      exact hsatMid i (by rw [← hlenEq]; exact hi) k
    obtain ⟨h1g, hexh1, hedh1, hlenh1, hinvh1⟩ :=
      replay_nodes L1 [] s1.graph s1.graph hwf1 hkeys rfl rfl
        (by
          intro i hi
          refine ⟨rfl, ?_⟩
          intro k
          rw [bagsFor_nil, plusEq_nil])
    have hpropEq : ∀ i, i < s1.graph.nodes.length →
        (nthNode h1g i).label = (nthNode s1.graph i).label ∧
        ∀ k, (nthNode h1g i).props k = (nthNode s1.graph i).props k := by
      intro i hi
      obtain ⟨hl, hp⟩ := hinvh1 i hi
      refine ⟨hl, fun k => ?_⟩
      rw [hp k, List.nil_append]
      exact hsat i hi k
    obtain ⟨h2g, hexh2, hedh2, hnodesh2⟩ :=
      replay_rels L2 s1.graph h1g hL2 hClosed hedh1 hlenh1 hpropEq
    have hg2 : execG s1.graph (opsOf files) = Except.ok h2g := by
      rw [hsplit, execG_append, hexh1]
      exact hexh2
    have hmap : (execOps (initState s1.graph) (opsOf files)).map
        (fun s => s.graph) = Except.ok h2g := by
      rw [execOps_graph]
      exact hg2
    cases hrun2 : execOps (initState s1.graph) (opsOf files) with
    | error e => rw [hrun2] at hmap; exact Except.noConfusion hmap
    | ok s2 =>
        rw [hrun2] at hmap
        have hs2g : s2.graph = h2g := Except.ok.inj hmap
        refine ⟨s2, hrun2, ?_⟩
        rw [hs2g]
        have hnodeEq : ∀ i, i < h1g.nodes.length →
            h1g.nodes.getD i dummyNode = s1.graph.nodes.getD i dummyNode := by
          intro i hi
          have hi2 : i < s1.graph.nodes.length := by rw [← hlenh1]; exact hi
          obtain ⟨hl, hp⟩ := hpropEq i hi2
          exact Node_ext_of _ _ hl hp
        have hnodes1 : h1g.nodes = s1.graph.nodes := nodes_ext _ _ hlenh1 hnodeEq
        calc h2g = ⟨h2g.nodes, h2g.edges⟩ := rfl
          _ = ⟨s1.graph.nodes, s1.graph.edges⟩ := by rw [hnodesh2, hnodes1, hedh2]
          _ = s1.graph := rfl

/- Witness data: the same entities as c1Files but in node-first order. -/

def fgood : List (String × String) :=
  [("per.csv", "id;Nombre;TipoLector\n1;Ana;F"),
   ("lib.csv", "idLibro;Titulo;Genero;Anno\n2;T;G;1999"),
   ("rel.csv", "id;idLibro\n1;2")]

def fgoodL1 : List Op := opsOf (fgood.take 2)

def fgoodL2 : List Op := opsOf (fgood.drop 2)

def s1good : IngestState :=
  match runIngest Graph.empty fgood with
  | Except.ok s => s
  | Except.error _ => initState Graph.empty

theorem ingestion_idempotent_witness :
    ∃ s2, runIngest s1good.graph fgood = Except.ok s2 ∧ s2.graph = s1good.graph :=
  ingestion_idempotent fgood fgoodL1 fgoodL2 Graph.empty s1good
    (by decide) (by decide) (by decide) rfl

end ProyectoBases
